import Mathlib

/-!
# avi_info.c : the RIFF/AVI metadata walker

A shallow embedding of `src/test_avi_file/avi_info.c`.

Modelling conventions.

* The file is a list of octets; a `FILE` is the content, the position indicator and the
  end-of-file indicator of a C stream opened with `"rb"`.
* `fread` reads the octets that are there: a read that crosses the end of the content is short,
  advances the position by what was read only, and sets the end-of-file indicator.
  What a short read leaves in a destination that C leaves indeterminate (an uninitialised
  stack buffer) is modelled as zero; a destination with earlier content keeps it.
* `fseek (.., SEEK_CUR)` with a non-negative offset moves the position forward, possibly beyond
  the end of the content, and clears the end-of-file indicator.
* `long` is 64 bits wide (LP64): a position never wraps. `uint32_t` arithmetic wraps at `2 ^ 32`,
  `uint16_t` values are below `2 ^ 16`.
* A loop that may spin forever is cut off by `fuel`: `none` means that the loop was still running
  after `fuel` iterations.
-/

namespace AviInfo

/-! ## Data model -/

/-- One octet. -/
abbrev Byte := Fin 256

def FOURCC_SIZE : Nat := 4

def MAX_STREAMS : Nat := 10

/-- A four character code: `char id[FOURCC_SIZE]`. -/
structure FourCC where
  c0 : Byte
  c1 : Byte
  c2 : Byte
  c3 : Byte
deriving DecidableEq

/-- The four octets of a code, in file order. -/
def FourCC.bytes (t : FourCC) : List Byte := [t.c0, t.c1, t.c2, t.c3]

/-- The code of four NUL characters (what `memset` leaves). -/
def FourCC.zero : FourCC := ⟨0, 0, 0, 0⟩

/-- The literal "RIFF". -/
def tagRIFF : FourCC := ⟨82, 73, 70, 70⟩
/-- The literal "AVI " (with a trailing blank). -/
def tagAVI : FourCC := ⟨65, 86, 73, 32⟩
/-- The literal "LIST". -/
def tagLIST : FourCC := ⟨76, 73, 83, 84⟩
/-- The literal "hdrl". -/
def tagHdrl : FourCC := ⟨104, 100, 114, 108⟩
/-- The literal "avih". -/
def tagAvih : FourCC := ⟨97, 118, 105, 104⟩
/-- The literal "strl". -/
def tagStrl : FourCC := ⟨115, 116, 114, 108⟩
/-- The literal "strh". -/
def tagStrh : FourCC := ⟨115, 116, 114, 104⟩
/-- The literal "strf". -/
def tagStrf : FourCC := ⟨115, 116, 114, 102⟩
/-- The literal "movi". -/
def tagMovi : FourCC := ⟨109, 111, 118, 105⟩
/-- The literal "vids". -/
def tagVids : FourCC := ⟨118, 105, 100, 115⟩
/-- The literal "auds". -/
def tagAuds : FourCC := ⟨97, 117, 100, 115⟩

structure ChunkHeader where
  id : FourCC
  size : Nat
deriving DecidableEq

structure AVIMainHeader where
  micro_sec_per_frame : Nat
  max_bytes_per_sec : Nat
  padding_granularity : Nat
  flags : Nat
  total_frames : Nat
  initial_frames : Nat
  streams : Nat
  suggested_buffer_size : Nat
  width : Nat
  height : Nat
  reserved0 : Nat
  reserved1 : Nat
  reserved2 : Nat
  reserved3 : Nat
deriving DecidableEq

/-- The rectangle `frame` of a stream header. -/
structure Frame where
  left : Nat
  top : Nat
  right : Nat
  bottom : Nat
deriving DecidableEq

structure AVIStreamHeader where
  type : FourCC
  handler : FourCC
  flags : Nat
  priority : Nat
  initial_frames : Nat
  scale : Nat
  rate : Nat
  start : Nat
  length : Nat
  suggested_buffer_size : Nat
  quality : Nat
  sample_size : Nat
  frame : Frame
deriving DecidableEq

structure BitmapInfoHeader where
  size : Nat
  width : Nat
  height : Nat
  planes : Nat
  bit_count : Nat
  compression : Nat
  image_size : Nat
  x_pels_per_meter : Nat
  y_pels_per_meter : Nat
  clr_used : Nat
  clr_important : Nat
deriving DecidableEq

structure WaveFormatEx where
  format_tag : Nat
  channels : Nat
  samples_per_sec : Nat
  avg_bytes_per_sec : Nat
  block_align : Nat
  bits_per_sample : Nat
  size : Nat
deriving DecidableEq

/-- The union `format` of a stream record, as the member that was stored last;
`zeroed` is the state `memset` leaves. -/
inductive StreamFormat where
  | zeroed
  | video (v : BitmapInfoHeader)
  | audio (a : WaveFormatEx)
deriving DecidableEq

/-- A stream record. `type` holds the four characters of `char type[FOURCC_SIZE + 1]`; the
fifth is always NUL. -/
structure StreamInfo where
  type : FourCC
  header : AVIStreamHeader
  format : StreamFormat
deriving DecidableEq

/-- The aggregate. `streams` always has `MAX_STREAMS` entries and `video_codec` five. -/
structure AVIInfo where
  main_header : AVIMainHeader
  stream_count : Nat
  streams : List StreamInfo
  video_streams : Nat
  audio_streams : Nat
  video_codec : List Byte
  movi_offset : Nat
  movi_size : Nat
deriving DecidableEq

def AVIMainHeader.zero : AVIMainHeader := ⟨0, 0, 0, 0, 0, 0, 0, 0, 0, 0, 0, 0, 0, 0⟩

def AVIStreamHeader.zero : AVIStreamHeader :=
  ⟨FourCC.zero, FourCC.zero, 0, 0, 0, 0, 0, 0, 0, 0, 0, 0, ⟨0, 0, 0, 0⟩⟩

def StreamInfo.zero : StreamInfo := ⟨FourCC.zero, AVIStreamHeader.zero, StreamFormat.zeroed⟩

/-- The aggregate after `memset(info, 0, sizeof(AVIInfo))`. -/
def AVIInfo.zero : AVIInfo :=
  { main_header := AVIMainHeader.zero
    stream_count := 0
    streams := List.replicate MAX_STREAMS StreamInfo.zero
    video_streams := 0
    audio_streams := 0
    video_codec := [0, 0, 0, 0, 0]
    movi_offset := 0
    movi_size := 0 }

/-! ## The byte cursor -/

/-- A C stream open for reading. -/
structure FILE where
  data : List Byte
  pos : Nat
  eof : Bool
deriving DecidableEq

/-- The stream `fopen` returns. -/
def fopen (data : List Byte) : FILE := ⟨data, 0, false⟩

/-- The call `fread(buf, 1, n, file)`: the octets read (fewer than `n` at the end of the content)
and the stream afterwards. -/
def fread (file : FILE) (n : Nat) : List Byte × FILE :=
  let got := (file.data.drop file.pos).take n
  (got, { file with pos := file.pos + got.length, eof := file.eof || decide (got.length < n) })

/-- The call `fseek(file, off, SEEK_CUR)` for `off ≥ 0`. -/
def fseek (file : FILE) (off : Nat) : FILE :=
  { file with pos := file.pos + off, eof := false }

def ftell (file : FILE) : Nat := file.pos

def feof (file : FILE) : Bool := file.eof

/-- Little-endian 32-bit read; octets a short read does not deliver count as zero. -/
def read_uint32 (file : FILE) : Nat × FILE :=
  let r := fread file 4
  let buf (i : Nat) : Nat := (r.1.getD i 0).val
  ((buf 0 ||| (buf 1 <<< 8) ||| (buf 2 <<< 16) ||| (buf 3 <<< 24)) % 2 ^ 32, r.2)

/-- Little-endian 16-bit read. -/
def read_uint16 (file : FILE) : Nat × FILE :=
  let r := fread file 2
  let buf (i : Nat) : Nat := (r.1.getD i 0).val
  ((buf 0 ||| (buf 1 <<< 8)) % 2 ^ 16, r.2)

/-- The call `read_fourcc(file, fourcc)`; `old` is what the destination held before, kept where
the read is short. -/
def read_fourcc (file : FILE) (old : FourCC) : FourCC × FILE :=
  let r := fread file FOURCC_SIZE
  (⟨r.1.getD 0 old.c0, r.1.getD 1 old.c1, r.1.getD 2 old.c2, r.1.getD 3 old.c3⟩, r.2)

/-- The comparison `memcmp(a, b, FOURCC_SIZE) == 0`. -/
def fourcc_equals (a b : FourCC) : Bool := decide (a.bytes = b.bytes)

def read_chunk_header (file : FILE) : ChunkHeader × FILE :=
  let (id, file) := read_fourcc file FourCC.zero
  let (size, file) := read_uint32 file
  (⟨id, size⟩, file)

/-! ## Fixed-layout decoders -/

def read_avi_main_header (file : FILE) : AVIMainHeader × FILE :=
  let (micro_sec_per_frame, file) := read_uint32 file
  let (max_bytes_per_sec, file) := read_uint32 file
  let (padding_granularity, file) := read_uint32 file
  let (flags, file) := read_uint32 file
  let (total_frames, file) := read_uint32 file
  let (initial_frames, file) := read_uint32 file
  let (streams, file) := read_uint32 file
  let (suggested_buffer_size, file) := read_uint32 file
  let (width, file) := read_uint32 file
  let (height, file) := read_uint32 file
  let (reserved0, file) := read_uint32 file
  let (reserved1, file) := read_uint32 file
  let (reserved2, file) := read_uint32 file
  let (reserved3, file) := read_uint32 file
  ({ micro_sec_per_frame, max_bytes_per_sec, padding_granularity, flags, total_frames,
     initial_frames, streams, suggested_buffer_size, width, height,
     reserved0, reserved1, reserved2, reserved3 }, file)

/-- The call `read_stream_header(file, header)`; `old` is the earlier content of `*header`. -/
def read_stream_header (file : FILE) (old : AVIStreamHeader) : AVIStreamHeader × FILE :=
  let (type, file) := read_fourcc file old.type
  let (handler, file) := read_fourcc file old.handler
  let (flags, file) := read_uint32 file
  let (priority, file) := read_uint32 file
  let (initial_frames, file) := read_uint32 file
  let (scale, file) := read_uint32 file
  let (rate, file) := read_uint32 file
  let (start, file) := read_uint32 file
  let (length, file) := read_uint32 file
  let (suggested_buffer_size, file) := read_uint32 file
  let (quality, file) := read_uint32 file
  let (sample_size, file) := read_uint32 file
  let (left, file) := read_uint16 file
  let (top, file) := read_uint16 file
  let (right, file) := read_uint16 file
  let (bottom, file) := read_uint16 file
  ({ type, handler, flags, priority, initial_frames, scale, rate, start, length,
     suggested_buffer_size, quality, sample_size, frame := ⟨left, top, right, bottom⟩ }, file)

def read_bitmap_info_header (file : FILE) : BitmapInfoHeader × FILE :=
  let (size, file) := read_uint32 file
  let (width, file) := read_uint32 file
  let (height, file) := read_uint32 file
  let (planes, file) := read_uint16 file
  let (bit_count, file) := read_uint16 file
  let (compression, file) := read_uint32 file
  let (image_size, file) := read_uint32 file
  let (x_pels_per_meter, file) := read_uint32 file
  let (y_pels_per_meter, file) := read_uint32 file
  let (clr_used, file) := read_uint32 file
  let (clr_important, file) := read_uint32 file
  ({ size, width, height, planes, bit_count, compression, image_size, x_pels_per_meter,
     y_pels_per_meter, clr_used, clr_important }, file)

def read_wave_format_ex (file : FILE) : WaveFormatEx × FILE :=
  let (format_tag, file) := read_uint16 file
  let (channels, file) := read_uint16 file
  let (samples_per_sec, file) := read_uint32 file
  let (avg_bytes_per_sec, file) := read_uint32 file
  let (block_align, file) := read_uint16 file
  let (bits_per_sample, file) := read_uint16 file
  let file := if ftell file % 2 ≠ 0 then fseek file 1 else file
  if !feof file then
    let (size, file) := read_uint16 file
    ({ format_tag, channels, samples_per_sec, avg_bytes_per_sec, block_align, bits_per_sample,
       size }, file)
  else
    ({ format_tag, channels, samples_per_sec, avg_bytes_per_sec, block_align, bits_per_sample,
       size := 0 }, file)

/-- The value `*(uint32_t *)fourcc` on a little-endian host. -/
def fourcc_to_uint32 (t : FourCC) : Nat :=
  t.c0.val + 256 * t.c1.val + 65536 * t.c2.val + 16777216 * t.c3.val

/-- The value of a `char` holding the octet `c` (a signed `char`). -/
def charValue (c : Nat) : Int := if c < 128 then (c : Int) else (c : Int) - 256

/-- The five characters `get_codec_name(fourcc, codec)` stores: `memcpy` of the four octets of
`fourcc` in memory order, a NUL, then every unprintable character replaced by a dot. -/
def get_codec_name (fourcc : Nat) : List Byte :=
  let codec : List Nat := [fourcc % 256, fourcc / 256 % 256, fourcc / 65536 % 256,
    fourcc / 16777216 % 256]
  (codec.map fun c =>
    if charValue c < 32 ∨ charValue c > 126 then (46 : Byte) else Fin.ofNat c) ++ [0]

/-! ## The container walker -/

/-- The value of the `uint32_t` expression `size - k`. -/
def sub32 (size k : Nat) : Nat := (size + (2 ^ 32 - k)) % 2 ^ 32

/-- The alignment step `if (size % 2 != 0) fseek(file, 1, SEEK_CUR);`. -/
def align2 (size : Nat) (file : FILE) : FILE :=
  if size % 2 ≠ 0 then fseek file 1 else file

/-- One iteration of the innermost loop (lines 331-385): a chunk of a stream list; `idx` is the
index of the record `stream` points to. -/
def strl_body (idx : Nat) (file : FILE) (info : AVIInfo) : FILE × AVIInfo :=
  let hdr := read_chunk_header file
  let strl_chunk := hdr.1
  let file := hdr.2
  let stream := info.streams.getD idx StreamInfo.zero
  let r : FILE × AVIInfo :=
    if fourcc_equals strl_chunk.id tagStrh then
      let rh := read_stream_header file stream.header
      let header := rh.1
      let file := rh.2
      let stream := { stream with header := header, type := header.type }
      let info := { info with streams := info.streams.set idx stream }
      if fourcc_equals header.type tagVids then
        (file, { info with
          video_streams := (info.video_streams + 1) % 2 ^ 32
          video_codec := get_codec_name (fourcc_to_uint32 header.handler) })
      else if fourcc_equals header.type tagAuds then
        (file, { info with audio_streams := (info.audio_streams + 1) % 2 ^ 32 })
      else
        (file, info)
    else if fourcc_equals strl_chunk.id tagStrf then
      if fourcc_equals stream.header.type tagVids then
        let rv := read_bitmap_info_header file
        (rv.2, { info with
          streams := info.streams.set idx { stream with format := StreamFormat.video rv.1 } })
      else if fourcc_equals stream.header.type tagAuds then
        let ra := read_wave_format_ex file
        (ra.2, { info with
          streams := info.streams.set idx { stream with format := StreamFormat.audio ra.1 } })
      else
        (fseek file (sub32 strl_chunk.size 8), info)
    else
      (fseek file strl_chunk.size, info)
  (align2 strl_chunk.size r.1, r.2)

/-- The loop `while (ftell(file) < sub_chunk_start + sub_chunk.size + 8)` of line 329, with
`bound` the right-hand side. -/
def strl_loop (bound idx : Nat) : Nat → FILE → AVIInfo → Option (FILE × AVIInfo)
  | fuel, file, info =>
    if ftell file < bound then
      match fuel with
      | 0 => none
      | fuel + 1 =>
        let r := strl_body idx file info
        strl_loop bound idx fuel r.1 r.2
    else
      some (file, info)

/-- One iteration of the header-list loop (lines 308-406). -/
def hdrl_body (fuel : Nat) (file : FILE) (info : AVIInfo) : Option (FILE × AVIInfo) :=
  let sub_chunk_start := ftell file
  let hdr := read_chunk_header file
  let sub_chunk := hdr.1
  let file := hdr.2
  let r : Option (FILE × AVIInfo) :=
    if fourcc_equals sub_chunk.id tagAvih then
      let rm := read_avi_main_header file
      some (rm.2, { info with main_header := rm.1 })
    else if fourcc_equals sub_chunk.id tagLIST then
      let rt := read_fourcc file FourCC.zero
      let sub_list_type := rt.1
      let file := rt.2
      if fourcc_equals sub_list_type tagStrl && decide (info.stream_count < MAX_STREAMS) then
        (strl_loop (sub_chunk_start + sub_chunk.size + 8) info.stream_count fuel file info).map
          fun r => (r.1, { r.2 with stream_count := (r.2.stream_count + 1) % 2 ^ 32 })
      else
        some (fseek file (sub32 sub_chunk.size 4), info)
    else
      some (fseek file sub_chunk.size, info)
  r.map fun r => (align2 sub_chunk.size r.1, r.2)

/-- The loop `while (ftell(file) < chunk_start + chunk.size + 8)` of line 306; `fuel` bounds the
iterations of each loop inside it, `n` those of this loop. -/
def hdrl_loop (bound fuel : Nat) : Nat → FILE → AVIInfo → Option (FILE × AVIInfo)
  | n, file, info =>
    if ftell file < bound then
      match n with
      | 0 => none
      | n + 1 => (hdrl_body fuel file info).bind fun r => hdrl_loop bound fuel n r.1 r.2
    else
      some (file, info)

/-- One iteration of the top-level loop (lines 291-436). -/
def top_body (fuel : Nat) (file : FILE) (info : AVIInfo) : Option (FILE × AVIInfo) :=
  let chunk_start := ftell file
  let hdr := read_chunk_header file
  let chunk := hdr.1
  let file := hdr.2
  let r : Option (FILE × AVIInfo) :=
    if fourcc_equals chunk.id tagLIST then
      let rt := read_fourcc file FourCC.zero
      let list_type := rt.1
      let file := rt.2
      if fourcc_equals list_type tagHdrl then
        hdrl_loop (chunk_start + chunk.size + 8) fuel fuel file info
      else if fourcc_equals list_type tagMovi then
        let info := { info with
          movi_offset := (ftell file - 4) % 2 ^ 32
          movi_size := sub32 chunk.size 4 }
        some (fseek file (sub32 chunk.size 4), info)
      else
        some (fseek file (sub32 chunk.size 4), info)
    else
      some (fseek file chunk.size, info)
  r.map fun r => (align2 chunk.size r.1, r.2)

/-- The loop `while (file_size < riff_header.size + 8)` of line 289; `bound` is the value of the
`uint32_t` expression on the right, `fuel` bounds the iterations of each loop inside, `n` those
of this loop. -/
def top_loop (bound fuel : Nat) : Nat → FILE → AVIInfo → Option (FILE × AVIInfo)
  | n, file, info =>
    if ftell file < bound then
      match n with
      | 0 => none
      | n + 1 => (top_body fuel file info).bind fun r => top_loop bound fuel n r.1 r.2
    else
      some (file, info)

/-- The function `parse_avi_file` on a file that opens, with content `data`: the value returned
and the aggregate `*info` afterwards; `none` when a loop is still running after `fuel`
iterations. -/
def parse_avi_file (fuel : Nat) (data : List Byte) : Option (Int × AVIInfo) :=
  let file := fopen data
  let info := AVIInfo.zero
  let hdr := read_chunk_header file
  let riff_header := hdr.1
  let file := hdr.2
  if !fourcc_equals riff_header.id tagRIFF then
    some (-1, info)
  else
    let rt := read_fourcc file FourCC.zero
    let form_type := rt.1
    let file := rt.2
    if !fourcc_equals form_type tagAVI then
      some (-1, info)
    else
      (top_loop ((riff_header.size + 8) % 2 ^ 32) fuel fuel file info).map fun r => (0, r.2)

/-! ## Writing a file

The encoders below produce the byte sequences the claims speak of. They are the inverse of the
decoders by theorem, not by definition. -/

/-- The octet `x mod 256`. -/
def byte (x : Nat) : Byte := ⟨x % 256, Nat.mod_lt x (by decide)⟩

/-- Little-endian encoding of a 16-bit value. -/
def le16 (x : Nat) : List Byte := [byte x, byte (x / 256)]

/-- Little-endian encoding of a 32-bit value. -/
def le32 (x : Nat) : List Byte := [byte x, byte (x / 256), byte (x / 65536), byte (x / 16777216)]

/-- The pad byte that follows a body of odd length. -/
def pad (n : Nat) : List Byte := if n % 2 = 1 then [0] else []

/-- A chunk: tag, declared size (the length of the body), body, pad byte. -/
def chunk (tag : FourCC) (body : List Byte) : List Byte :=
  tag.bytes ++ le32 body.length ++ body ++ pad body.length

/-- A LIST chunk: the sub-type tag counts as the first four bytes of the body. -/
def listChunk (sub : FourCC) (body : List Byte) : List Byte :=
  chunk tagLIST (sub.bytes ++ body)

/-- The 56 bytes of an `avih` body. -/
def encodeMainHeader (m : AVIMainHeader) : List Byte :=
  le32 m.micro_sec_per_frame ++ le32 m.max_bytes_per_sec ++ le32 m.padding_granularity ++
  le32 m.flags ++ le32 m.total_frames ++ le32 m.initial_frames ++ le32 m.streams ++
  le32 m.suggested_buffer_size ++ le32 m.width ++ le32 m.height ++
  le32 m.reserved0 ++ le32 m.reserved1 ++ le32 m.reserved2 ++ le32 m.reserved3

/-- The 56 bytes of a `strh` body. -/
def encodeStreamHeader (h : AVIStreamHeader) : List Byte :=
  h.type.bytes ++ h.handler.bytes ++ le32 h.flags ++ le32 h.priority ++ le32 h.initial_frames ++
  le32 h.scale ++ le32 h.rate ++ le32 h.start ++ le32 h.length ++
  le32 h.suggested_buffer_size ++ le32 h.quality ++ le32 h.sample_size ++
  le16 h.frame.left ++ le16 h.frame.top ++ le16 h.frame.right ++ le16 h.frame.bottom

/-- The 40 bytes of a video `strf` body. -/
def encodeBitmapInfoHeader (v : BitmapInfoHeader) : List Byte :=
  le32 v.size ++ le32 v.width ++ le32 v.height ++ le16 v.planes ++ le16 v.bit_count ++
  le32 v.compression ++ le32 v.image_size ++ le32 v.x_pels_per_meter ++
  le32 v.y_pels_per_meter ++ le32 v.clr_used ++ le32 v.clr_important

/-- The 18 bytes of an audio `strf` body that carries the trailing size field. -/
def encodeWaveFormatEx (a : WaveFormatEx) : List Byte :=
  le16 a.format_tag ++ le16 a.channels ++ le32 a.samples_per_sec ++ le32 a.avg_bytes_per_sec ++
  le16 a.block_align ++ le16 a.bits_per_sample ++ le16 a.size

/-- Every field of a main header fits its 32 bits. -/
def AVIMainHeader.InRange (m : AVIMainHeader) : Prop :=
  m.micro_sec_per_frame < 2 ^ 32 ∧ m.max_bytes_per_sec < 2 ^ 32 ∧
  m.padding_granularity < 2 ^ 32 ∧ m.flags < 2 ^ 32 ∧ m.total_frames < 2 ^ 32 ∧
  m.initial_frames < 2 ^ 32 ∧ m.streams < 2 ^ 32 ∧ m.suggested_buffer_size < 2 ^ 32 ∧
  m.width < 2 ^ 32 ∧ m.height < 2 ^ 32 ∧ m.reserved0 < 2 ^ 32 ∧ m.reserved1 < 2 ^ 32 ∧
  m.reserved2 < 2 ^ 32 ∧ m.reserved3 < 2 ^ 32

/-- Every field of a stream header fits its 32 or 16 bits. -/
def AVIStreamHeader.InRange (h : AVIStreamHeader) : Prop :=
  h.flags < 2 ^ 32 ∧ h.priority < 2 ^ 32 ∧ h.initial_frames < 2 ^ 32 ∧ h.scale < 2 ^ 32 ∧
  h.rate < 2 ^ 32 ∧ h.start < 2 ^ 32 ∧ h.length < 2 ^ 32 ∧ h.suggested_buffer_size < 2 ^ 32 ∧
  h.quality < 2 ^ 32 ∧ h.sample_size < 2 ^ 32 ∧ h.frame.left < 2 ^ 16 ∧ h.frame.top < 2 ^ 16 ∧
  h.frame.right < 2 ^ 16 ∧ h.frame.bottom < 2 ^ 16

/-- Every field of a bitmap header fits its 32 or 16 bits. -/
def BitmapInfoHeader.InRange (v : BitmapInfoHeader) : Prop :=
  v.size < 2 ^ 32 ∧ v.width < 2 ^ 32 ∧ v.height < 2 ^ 32 ∧ v.planes < 2 ^ 16 ∧
  v.bit_count < 2 ^ 16 ∧ v.compression < 2 ^ 32 ∧ v.image_size < 2 ^ 32 ∧
  v.x_pels_per_meter < 2 ^ 32 ∧ v.y_pels_per_meter < 2 ^ 32 ∧ v.clr_used < 2 ^ 32 ∧
  v.clr_important < 2 ^ 32

/-- Every field of a wave format fits its 32 or 16 bits. -/
def WaveFormatEx.InRange (a : WaveFormatEx) : Prop :=
  a.format_tag < 2 ^ 16 ∧ a.channels < 2 ^ 16 ∧ a.samples_per_sec < 2 ^ 32 ∧
  a.avg_bytes_per_sec < 2 ^ 32 ∧ a.block_align < 2 ^ 16 ∧ a.bits_per_sample < 2 ^ 16 ∧
  a.size < 2 ^ 16

instance (m : AVIMainHeader) : Decidable m.InRange := by
  unfold AVIMainHeader.InRange; infer_instance

instance (h : AVIStreamHeader) : Decidable h.InRange := by
  unfold AVIStreamHeader.InRange; infer_instance

instance (v : BitmapInfoHeader) : Decidable v.InRange := by
  unfold BitmapInfoHeader.InRange; infer_instance

instance (a : WaveFormatEx) : Decidable a.InRange := by
  unfold WaveFormatEx.InRange; infer_instance

/-- The minimal file of the round trip: RIFF, form type, a header list with the main header and
one stream list (stream header, video format), and the movi list with its payload. -/
def minimalAvi (m : AVIMainHeader) (h : AVIStreamHeader) (v : BitmapInfoHeader)
    (payload : List Byte) : List Byte :=
  let hdrl := listChunk tagHdrl
    (chunk tagAvih (encodeMainHeader m) ++
     listChunk tagStrl (chunk tagStrh (encodeStreamHeader h) ++
       chunk tagStrf (encodeBitmapInfoHeader v)))
  let movi := listChunk tagMovi payload
  tagRIFF.bytes ++ le32 (4 + hdrl.length + movi.length) ++ tagAVI.bytes ++ hdrl ++ movi

/-! ## Well-formed files

A structured description of the files on which the decoded chunks have exactly the sizes the
decoders consume (`avih` 56, `strh` 56, video `strf` 40, audio `strf` 18), and the effect of
the walker on such a description. -/

/-- A chunk the walker has no decoder for. -/
structure RawChunk where
  tag : FourCC
  body : List Byte

def RawChunk.bytes (c : RawChunk) : List Byte := chunk c.tag c.body

def rawChunksBytes : List RawChunk → List Byte
  | [] => []
  | c :: cs => c.bytes ++ rawChunksBytes cs

/-- A stream list: the stream header, the format chunk (none for `zeroed`) and further chunks. -/
structure StreamDoc where
  header : AVIStreamHeader
  format : StreamFormat
  extra : List RawChunk

def StreamFormat.bytes : StreamFormat → List Byte
  | .zeroed => []
  | .video v => chunk tagStrf (encodeBitmapInfoHeader v)
  | .audio a => chunk tagStrf (encodeWaveFormatEx a)

def StreamDoc.body (s : StreamDoc) : List Byte :=
  chunk tagStrh (encodeStreamHeader s.header) ++ (s.format.bytes ++ rawChunksBytes s.extra)

def StreamDoc.bytes (s : StreamDoc) : List Byte := listChunk tagStrl s.body

/-- The format chunk is the one of the stream type and all fields fit. -/
def StreamFormat.WF (type : FourCC) : StreamFormat → Prop
  | .zeroed => True
  | .video v => type = tagVids ∧ v.InRange
  | .audio a => type = tagAuds ∧ a.InRange

def StreamDoc.WF (s : StreamDoc) : Prop :=
  s.header.InRange ∧ s.format.WF s.header.type ∧
    ∀ c ∈ s.extra, c.tag ≠ tagStrh ∧ c.tag ≠ tagStrf

/-- What a header list holds. -/
inductive HdrlItem where
  | avih (m : AVIMainHeader)
  | strl (s : StreamDoc)
  | raw (c : RawChunk)
  | list (sub : FourCC) (body : List Byte)

def HdrlItem.bytes : HdrlItem → List Byte
  | .avih m => chunk tagAvih (encodeMainHeader m)
  | .strl s => s.bytes
  | .raw c => c.bytes
  | .list sub body => listChunk sub body

def HdrlItem.WF : HdrlItem → Prop
  | .avih m => m.InRange
  | .strl s => s.WF
  | .raw c => c.tag ≠ tagAvih ∧ c.tag ≠ tagLIST
  | .list sub _ => sub ≠ tagStrl

def hdrlItemsBytes : List HdrlItem → List Byte
  | [] => []
  | i :: is => i.bytes ++ hdrlItemsBytes is

/-- What the RIFF chunk holds after the form type. -/
inductive TopItem where
  | hdrl (items : List HdrlItem)
  | movi (payload : List Byte)
  | raw (c : RawChunk)
  | list (sub : FourCC) (body : List Byte)

def TopItem.bytes : TopItem → List Byte
  | .hdrl items => listChunk tagHdrl (hdrlItemsBytes items)
  | .movi payload => listChunk tagMovi payload
  | .raw c => c.bytes
  | .list sub body => listChunk sub body

def TopItem.WF : TopItem → Prop
  | .hdrl items => ∀ i ∈ items, i.WF
  | .movi _ => True
  | .raw c => c.tag ≠ tagLIST
  | .list sub _ => sub ≠ tagHdrl ∧ sub ≠ tagMovi

def topItemsBytes : List TopItem → List Byte
  | [] => []
  | i :: is => i.bytes ++ topItemsBytes is

/-- The file of a description: the RIFF header with the size of what follows, the form type,
the items. -/
def aviBytes (items : List TopItem) : List Byte :=
  tagRIFF.bytes ++ le32 (4 + (topItemsBytes items).length) ++ tagAVI.bytes ++ topItemsBytes items

/-- A file of the class: every item is well formed and the file is shorter than `2 ^ 32`
bytes. -/
def WellFormed (items : List TopItem) : Prop :=
  (∀ i ∈ items, i.WF) ∧ (aviBytes items).length < 2 ^ 32

instance (type : FourCC) (fmt : StreamFormat) : Decidable (fmt.WF type) := by
  cases fmt <;> unfold StreamFormat.WF <;> infer_instance

instance (s : StreamDoc) : Decidable s.WF := by
  unfold StreamDoc.WF; infer_instance

instance (i : HdrlItem) : Decidable i.WF := by
  cases i <;> unfold HdrlItem.WF <;> infer_instance

instance (i : TopItem) : Decidable i.WF := by
  cases i <;> unfold TopItem.WF <;> infer_instance

instance (items : List TopItem) : Decidable (WellFormed items) := by
  unfold WellFormed; infer_instance

/-- The effect of the `strh` chunk of a stream list on the aggregate. -/
def applyStrh (idx : Nat) (hd : AVIStreamHeader) (info : AVIInfo) : AVIInfo :=
  let stream := info.streams.getD idx StreamInfo.zero
  let info := { info with
    streams := info.streams.set idx { stream with header := hd, type := hd.type } }
  if hd.type = tagVids then
    { info with
      video_streams := (info.video_streams + 1) % 2 ^ 32
      video_codec := get_codec_name (fourcc_to_uint32 hd.handler) }
  else if hd.type = tagAuds then
    { info with audio_streams := (info.audio_streams + 1) % 2 ^ 32 }
  else info

/-- The effect of the `strf` chunk of a stream list on the aggregate. -/
def applyStrf (idx : Nat) (fmt : StreamFormat) (info : AVIInfo) : AVIInfo :=
  match fmt with
  | .zeroed => info
  | fmt =>
    { info with
      streams := info.streams.set idx
        { info.streams.getD idx StreamInfo.zero with format := fmt } }

/-- The effect of a stream list that is recorded: its header, its format, one more stream. -/
def StreamDoc.apply (s : StreamDoc) (info : AVIInfo) : AVIInfo :=
  let info := applyStrf info.stream_count s.format (applyStrh info.stream_count s.header info)
  { info with stream_count := (info.stream_count + 1) % 2 ^ 32 }

/-- The effect of one item of a header list. -/
def HdrlItem.apply : HdrlItem → AVIInfo → AVIInfo
  | .avih m, info => { info with main_header := m }
  | .strl s, info => if info.stream_count < MAX_STREAMS then s.apply info else info
  | .raw _, info => info
  | .list _ _, info => info

def hdrlItemsApply : List HdrlItem → AVIInfo → AVIInfo
  | [], info => info
  | i :: is, info => hdrlItemsApply is (i.apply info)

/-- The effect of one top-level item that starts at offset `p`. -/
def TopItem.apply (p : Nat) : TopItem → AVIInfo → AVIInfo
  | .hdrl items, info => hdrlItemsApply items info
  | .movi payload, info => { info with movi_offset := p + 8, movi_size := payload.length }
  | .raw _, info => info
  | .list _ _, info => info

def topItemsApply : Nat → List TopItem → AVIInfo → AVIInfo
  | _, [], info => info
  | p, i :: is, info => topItemsApply (p + i.bytes.length) is (i.apply p info)

/-- The aggregate the walker builds from a file of the class. -/
def aviInfoOf (items : List TopItem) : AVIInfo := topItemsApply 12 items AVIInfo.zero

/-- The stream lists of a header list, in file order. -/
def hdrlStreams : List HdrlItem → List StreamDoc
  | [] => []
  | .strl s :: is => s :: hdrlStreams is
  | _ :: is => hdrlStreams is

/-- The stream lists of a file, in file order. -/
def topStreams : List TopItem → List StreamDoc
  | [] => []
  | .hdrl items :: is => hdrlStreams items ++ topStreams is
  | _ :: is => topStreams is

/-- The last stream of type vids of a sequence of streams. -/
def lastVideo : List StreamDoc → Option StreamDoc
  | [] => none
  | s :: ss =>
    match lastVideo ss with
    | some t => some t
    | none => if s.header.type = tagVids then some s else none

/-- The codec name a sequence of streams leaves: that of its last video stream. -/
def codecAfter (ss : List StreamDoc) (old : List Byte) : List Byte :=
  match lastVideo ss with
  | some t => get_codec_name (fourcc_to_uint32 t.header.handler)
  | none => old

/-- The effect of a sequence of stream lists: each is recorded while there is room. -/
def applyStreams : List StreamDoc → AVIInfo → AVIInfo
  | [], info => info
  | s :: ss, info =>
    applyStreams ss (if info.stream_count < MAX_STREAMS then s.apply info else info)

/-- Two aggregates agree on everything the stream lists write. -/
def SameStreams (a b : AVIInfo) : Prop :=
  a.stream_count = b.stream_count ∧ a.streams = b.streams ∧
    a.video_streams = b.video_streams ∧ a.audio_streams = b.audio_streams ∧
    a.video_codec = b.video_codec

/-- The number of records among the first `n` whose type is neither vids nor auds. -/
def otherStreams (streams : List StreamInfo) (n : Nat) : Nat :=
  ((List.range n).filter fun i =>
    decide ((streams.getD i StreamInfo.zero).type ≠ tagVids ∧
      (streams.getD i StreamInfo.zero).type ≠ tagAuds)).length

/-- The number of streams of a sequence whose header has the type `t`. -/
def countType (t : FourCC) : List StreamDoc → Nat
  | [] => 0
  | s :: ss => (if s.header.type = t then 1 else 0) + countType t ss

/-- The number of streams of a sequence whose header type is neither vids nor auds. -/
def countOther : List StreamDoc → Nat
  | [] => 0
  | s :: ss =>
    (if s.header.type ≠ tagVids ∧ s.header.type ≠ tagAuds then 1 else 0) + countOther ss

/-! ## Sample files -/

/-- A stream header of type vids with the given handler tag, all other fields zero. -/
def videoHeader (handler : FourCC) : AVIStreamHeader :=
  { AVIStreamHeader.zero with type := tagVids, handler := handler }

/-- A stream header of type auds, all other fields zero. -/
def audioHeader : AVIStreamHeader := { AVIStreamHeader.zero with type := tagAuds }

/-- A 320x240, 24-bit bitmap header. -/
def sampleBitmap : BitmapInfoHeader := ⟨40, 320, 240, 1, 24, 0, 0, 0, 0, 0, 0⟩

/-- The 16 bytes of a PCM wave format without the trailing size field: tag 1, 2 channels,
44100 Hz, 176400 bytes per second, block alignment 4, 16 bits per sample. -/
def pcmFormat16 : List Byte :=
  le16 1 ++ le16 2 ++ le32 44100 ++ le32 176400 ++ le16 4 ++ le16 16

/-- A main header that declares two streams of 320x240. -/
def sampleMainHeader : AVIMainHeader :=
  { AVIMainHeader.zero with streams := 2, width := 320, height := 240 }

/-- A file with two video streams, the first with handler AAAA, the second with handler BBBB. -/
def twoVideoItems : List TopItem :=
  [TopItem.hdrl
    [HdrlItem.avih sampleMainHeader,
     HdrlItem.strl ⟨videoHeader ⟨65, 65, 65, 65⟩, StreamFormat.video sampleBitmap, []⟩,
     HdrlItem.strl ⟨videoHeader ⟨66, 66, 66, 66⟩, StreamFormat.video sampleBitmap, []⟩],
   TopItem.movi [0, 0, 0, 0]]

/-- A file of 338 bytes whose first stream is a video stream with a two-entry palette after the
bitmap header (a `strf` chunk of declared size 48 at offset 164) and whose second stream is an
audio stream. -/
def paletteFile : List Byte :=
  let strf := chunk tagStrf (encodeBitmapInfoHeader sampleBitmap ++ [0, 0, 0, 0, 255, 255, 255, 0])
  let strlV := listChunk tagStrl
    (chunk tagStrh (encodeStreamHeader (videoHeader ⟨77, 74, 80, 71⟩)) ++ strf)
  let strlA := listChunk tagStrl
    (chunk tagStrh (encodeStreamHeader audioHeader) ++ chunk tagStrf (pcmFormat16 ++ le16 0))
  let hdrl := listChunk tagHdrl (chunk tagAvih (encodeMainHeader sampleMainHeader) ++ strlV ++ strlA)
  let movi := listChunk tagMovi [0, 0, 0, 0]
  tagRIFF.bytes ++ le32 (4 + hdrl.length + movi.length) ++ tagAVI.bytes ++ hdrl ++ movi

/-- A file of 276 bytes with one video stream whose `strf` chunk (declared size 48) carries,
after the bitmap header, eight bytes of codec data that read s, t, r, h, 0, 0, 0, 0; the movi
list holds 44 bytes. -/
def codecDataFile : List Byte :=
  let strf := chunk tagStrf (encodeBitmapInfoHeader sampleBitmap ++ tagStrh.bytes ++ le32 0)
  let strlV := listChunk tagStrl
    (chunk tagStrh (encodeStreamHeader (videoHeader ⟨77, 74, 80, 71⟩)) ++ strf)
  let hdrl := listChunk tagHdrl (chunk tagAvih (encodeMainHeader sampleMainHeader) ++ strlV)
  let movi := listChunk tagMovi (List.replicate 44 0)
  tagRIFF.bytes ++ le32 (4 + hdrl.length + movi.length) ++ tagAVI.bytes ++ hdrl ++ movi

/-- A file of 328 bytes whose header list holds two stream lists: an audio stream whose `strf`
chunk is the 16-byte PCM format, then a video stream. -/
def pcmFirstFile : List Byte :=
  let strlA := listChunk tagStrl
    (chunk tagStrh (encodeStreamHeader audioHeader) ++ chunk tagStrf pcmFormat16)
  let strlV := listChunk tagStrl
    (chunk tagStrh (encodeStreamHeader (videoHeader ⟨77, 74, 80, 71⟩)) ++
      chunk tagStrf (encodeBitmapInfoHeader sampleBitmap))
  let hdrl := listChunk tagHdrl (chunk tagAvih (encodeMainHeader sampleMainHeader) ++ strlA ++ strlV)
  let movi := listChunk tagMovi [0, 0, 0, 0]
  tagRIFF.bytes ++ le32 (4 + hdrl.length + movi.length) ++ tagAVI.bytes ++ hdrl ++ movi

/-! ## Reading a file: auxiliary definitions -/

/-- The input starts with the tag RIFF, four size bytes and the form type AVI. -/
def Envelope (data : List Byte) : Prop :=
  data.take 4 = tagRIFF.bytes ∧ (data.drop 8).take 4 = tagAVI.bytes

instance (data : List Byte) : Decidable (Envelope data) := by
  unfold Envelope; infer_instance

/-- What is left to read. -/
def FILE.rest (f : FILE) : List Byte := f.data.drop f.pos

/-- The stream after a read of `n` octets. -/
def FILE.skip (f : FILE) (n : Nat) : FILE := (fread f n).2

/-- Little-endian value of the first four octets of a list, missing ones counting as zero. -/
def dec32 (l : List Byte) : Nat :=
  (l.getD 0 0).val + 256 * (l.getD 1 0).val + 65536 * (l.getD 2 0).val +
    16777216 * (l.getD 3 0).val

/-- Little-endian value of the first two octets of a list, missing ones counting as zero. -/
def dec16 (l : List Byte) : Nat := (l.getD 0 0).val + 256 * (l.getD 1 0).val

/-- The first four octets of a list as a code, missing ones taken from `old`. -/
def decFourCC (old : FourCC) (l : List Byte) : FourCC :=
  ⟨l.getD 0 old.c0, l.getD 1 old.c1, l.getD 2 old.c2, l.getD 3 old.c3⟩

/-- The character `get_codec_name` keeps for the octet `b`, in the words of the specification:
the octet itself when it lies in [32, 126], a dot otherwise. -/
def renderByte (b : Nat) : Byte := if 32 ≤ b ∧ b ≤ 126 then byte b else 46

/-- The end-of-file indicator is set only when nothing is left to read; every stream the
program handles is of this kind. -/
def FILE.Consistent (f : FILE) : Prop := f.eof = true → f.data.length ≤ f.pos

/-- A file cut right after the form type: it declares a RIFF size of 100 and has 12 bytes. -/
def truncatedFile : List Byte := [82, 73, 70, 70, 100, 0, 0, 0, 65, 86, 73, 32]

/-- A `strf` chunk of declared size 4 and its four body bytes. -/
def shortStrf : List Byte := [115, 116, 114, 102, 4, 0, 0, 0, 1, 2, 3, 4]

/-- A chunk of declared size 4 with the tag JUNK, which the stream-list loop has no branch
for. -/
def shortJunk : List Byte := [74, 85, 78, 75, 4, 0, 0, 0, 1, 2, 3, 4]

/-! ## Facts about the byte cursor -/

theorem or_shift32 (a b c d : Nat) (ha : a < 256) (hb : b < 256) (hc : c < 256) (hd : d < 256) :
    (a ||| (b <<< 8) ||| (c <<< 16) ||| (d <<< 24)) % 2 ^ 32
      = a + 256 * b + 65536 * c + 16777216 * d := by
  have h1 : a ||| (b <<< 8) = a + 256 * b := by
    rw [Nat.shiftLeft_eq, Nat.or_comm, Nat.mul_comm b, ← Nat.mul_add_lt_is_or (by omega)]; omega
  have h2 : a + 256 * b ||| (c <<< 16) = a + 256 * b + 65536 * c := by
    rw [Nat.shiftLeft_eq, Nat.or_comm, Nat.mul_comm c, ← Nat.mul_add_lt_is_or (by omega)]; omega
  have h3 : a + 256 * b + 65536 * c ||| (d <<< 24) = a + 256 * b + 65536 * c + 16777216 * d := by
    rw [Nat.shiftLeft_eq, Nat.or_comm, Nat.mul_comm d, ← Nat.mul_add_lt_is_or (by omega)]; omega
  rw [h1, h2, h3]
  omega

theorem or_shift16 (a b : Nat) (ha : a < 256) (hb : b < 256) :
    (a ||| (b <<< 8)) % 2 ^ 16 = a + 256 * b := by
  have h1 : a ||| (b <<< 8) = a + 256 * b := by
    rw [Nat.shiftLeft_eq, Nat.or_comm, Nat.mul_comm b, ← Nat.mul_add_lt_is_or (by omega)]; omega
  rw [h1]; omega

theorem getD_take_of_lt (l : List Byte) (n i : Nat) (d : Byte) (h : i < n) :
    (l.take n).getD i d = l.getD i d := by
  simp [List.getD_eq_getElem?_getD, List.getElem?_take_of_lt h]

theorem fread_fst (f : FILE) (n : Nat) : (fread f n).1 = f.rest.take n := rfl

theorem fread_snd (f : FILE) (n : Nat) : (fread f n).2 = f.skip n := rfl

theorem skip_data (f : FILE) (n : Nat) : (f.skip n).data = f.data := rfl

theorem skip_pos (f : FILE) (n : Nat) : (f.skip n).pos = f.pos + min n f.rest.length := by
  simp [FILE.skip, fread, FILE.rest, List.length_take]

theorem skip_eof (f : FILE) (n : Nat) :
    (f.skip n).eof = (f.eof || decide (f.rest.length < n)) := by
  simp [FILE.skip, fread, FILE.rest, List.length_take]

theorem skip_rest (f : FILE) (n : Nat) : (f.skip n).rest = f.rest.drop n := by
  unfold FILE.rest
  rw [skip_pos, skip_data, List.drop_drop]
  by_cases h : n ≤ f.rest.length
  · rw [Nat.min_eq_left h]
  · have h1 : f.rest.length = f.data.length - f.pos := by simp [FILE.rest]
    rw [Nat.min_eq_right (by omega), List.drop_eq_nil_of_le (by omega),
      List.drop_eq_nil_of_le (by omega)]

theorem skip_skip (f : FILE) (a b : Nat) : (f.skip a).skip b = f.skip (a + b) := by
  have hd : ((f.skip a).skip b).data = (f.skip (a + b)).data := rfl
  have hp : ((f.skip a).skip b).pos = (f.skip (a + b)).pos := by
    simp only [skip_pos, skip_rest, List.length_drop]; omega
  have he : ((f.skip a).skip b).eof = (f.skip (a + b)).eof := by
    simp only [skip_eof, skip_rest, List.length_drop]
    generalize f.eof = e
    generalize f.rest.length = L
    by_cases h1 : L < a <;> by_cases h2 : L - a < b <;> by_cases h3 : L < a + b <;>
      simp [h1, h2, h3] <;> omega
  cases h1 : (f.skip a).skip b
  cases h2 : f.skip (a + b)
  simp_all

theorem skip_of_le (f : FILE) (n : Nat) (h : n ≤ f.rest.length) :
    f.skip n = ⟨f.data, f.pos + n, f.eof⟩ := by
  have hp := skip_pos f n
  have he := skip_eof f n
  have hd := skip_data f n
  rw [Nat.min_eq_left h] at hp
  have : decide (f.rest.length < n) = false := by simp; omega
  rw [this, Bool.or_false] at he
  cases h1 : f.skip n
  simp_all

theorem read_uint32_eq (f : FILE) : read_uint32 f = (dec32 f.rest, f.skip 4) := by
  simp only [read_uint32, fread_fst, fread_snd, dec32]
  rw [getD_take_of_lt _ _ _ _ (by decide : 0 < 4), getD_take_of_lt _ _ _ _ (by decide : 1 < 4),
    getD_take_of_lt _ _ _ _ (by decide : 2 < 4), getD_take_of_lt _ _ _ _ (by decide : 3 < 4),
    or_shift32 _ _ _ _ (Fin.is_lt _) (Fin.is_lt _) (Fin.is_lt _) (Fin.is_lt _)]

theorem read_uint16_eq (f : FILE) : read_uint16 f = (dec16 f.rest, f.skip 2) := by
  simp only [read_uint16, fread_fst, fread_snd, dec16]
  rw [getD_take_of_lt _ _ _ _ (by decide : 0 < 2), getD_take_of_lt _ _ _ _ (by decide : 1 < 2),
    or_shift16 _ _ (Fin.is_lt _) (Fin.is_lt _)]

theorem read_fourcc_eq (f : FILE) (old : FourCC) :
    read_fourcc f old = (decFourCC old f.rest, f.skip 4) := by
  simp only [read_fourcc, fread_fst, fread_snd, decFourCC, FOURCC_SIZE]
  rw [getD_take_of_lt _ _ _ _ (by decide : 0 < 4), getD_take_of_lt _ _ _ _ (by decide : 1 < 4),
    getD_take_of_lt _ _ _ _ (by decide : 2 < 4), getD_take_of_lt _ _ _ _ (by decide : 3 < 4)]

theorem read_chunk_header_eq (f : FILE) :
    read_chunk_header f
      = (⟨decFourCC FourCC.zero f.rest, dec32 (f.rest.drop 4)⟩, f.skip 8) := by
  simp only [read_chunk_header, read_fourcc_eq, read_uint32_eq, skip_rest, skip_skip]

/-! ## Decoding what the encoders wrote -/

theorem byte_val (x : Nat) : (byte x).val = x % 256 := rfl

theorem le32_length (x : Nat) : (le32 x).length = 4 := rfl

theorem le16_length (x : Nat) : (le16 x).length = 2 := rfl

theorem bytes_length (t : FourCC) : t.bytes.length = 4 := rfl

theorem drop4_le32 (x : Nat) (l : List Byte) : (le32 x ++ l).drop 4 = l := rfl

theorem drop2_le16 (x : Nat) (l : List Byte) : (le16 x ++ l).drop 2 = l := rfl

theorem drop4_bytes (t : FourCC) (l : List Byte) : (t.bytes ++ l).drop 4 = l := rfl

theorem dec32_le32 (x : Nat) (l : List Byte) : dec32 (le32 x ++ l) = x % 2 ^ 32 := by
  simp only [dec32, le32, List.cons_append, List.getD_cons_zero, List.getD_cons_succ, byte_val]
  omega

theorem dec16_le16 (x : Nat) (l : List Byte) : dec16 (le16 x ++ l) = x % 2 ^ 16 := by
  simp only [dec16, le16, List.cons_append, List.getD_cons_zero, List.getD_cons_succ, byte_val]
  omega

theorem decFourCC_append (old t : FourCC) (l : List Byte) : decFourCC old (t.bytes ++ l) = t := rfl

theorem fourcc_equals_iff (a b : FourCC) : fourcc_equals a b = true ↔ a = b := by
  obtain ⟨a0, a1, a2, a3⟩ := a
  obtain ⟨b0, b1, b2, b3⟩ := b
  simp [fourcc_equals, FourCC.bytes]

theorem fourcc_equals_self (a : FourCC) : fourcc_equals a a = true :=
  (fourcc_equals_iff a a).2 rfl

theorem fourcc_equals_of_ne {a b : FourCC} (h : a ≠ b) : fourcc_equals a b = false := by
  rw [Bool.eq_false_iff]; exact fun h1 => h ((fourcc_equals_iff a b).1 h1)

theorem read_avi_main_header_skip (f : FILE) : (read_avi_main_header f).2 = f.skip 56 := by
  simp only [read_avi_main_header, read_uint32_eq, skip_skip]

theorem read_stream_header_skip (f : FILE) (old : AVIStreamHeader) :
    (read_stream_header f old).2 = f.skip 56 := by
  simp only [read_stream_header, read_uint32_eq, read_uint16_eq, read_fourcc_eq, skip_skip]

theorem read_bitmap_info_header_skip (f : FILE) : (read_bitmap_info_header f).2 = f.skip 40 := by
  simp only [read_bitmap_info_header, read_uint32_eq, read_uint16_eq, skip_skip]

theorem read_avi_main_header_encode (f : FILE) (m : AVIMainHeader) (r : List Byte)
    (h : f.rest = encodeMainHeader m ++ r) (hm : m.InRange) :
    (read_avi_main_header f).1 = m := by
  obtain ⟨h1, h2, h3, h4, h5, h6, h7, h8, h9, h10, h11, h12, h13, h14⟩ := hm
  simp only [read_avi_main_header, read_uint32_eq, skip_rest, h, encodeMainHeader,
    List.append_assoc, drop4_le32, dec32_le32, Nat.mod_eq_of_lt h1, Nat.mod_eq_of_lt h2,
    Nat.mod_eq_of_lt h3, Nat.mod_eq_of_lt h4, Nat.mod_eq_of_lt h5, Nat.mod_eq_of_lt h6,
    Nat.mod_eq_of_lt h7, Nat.mod_eq_of_lt h8, Nat.mod_eq_of_lt h9, Nat.mod_eq_of_lt h10,
    Nat.mod_eq_of_lt h11, Nat.mod_eq_of_lt h12, Nat.mod_eq_of_lt h13, Nat.mod_eq_of_lt h14]

theorem read_stream_header_encode (f : FILE) (old h : AVIStreamHeader) (r : List Byte)
    (hr : f.rest = encodeStreamHeader h ++ r) (hh : h.InRange) :
    (read_stream_header f old).1 = h := by
  obtain ⟨h1, h2, h3, h4, h5, h6, h7, h8, h9, h10, h11, h12, h13, h14⟩ := hh
  simp only [read_stream_header, read_uint32_eq, read_uint16_eq, read_fourcc_eq, skip_rest, hr,
    encodeStreamHeader, List.append_assoc, drop4_le32, drop2_le16, drop4_bytes, dec32_le32,
    dec16_le16, decFourCC_append, Nat.mod_eq_of_lt h1, Nat.mod_eq_of_lt h2,
    Nat.mod_eq_of_lt h3, Nat.mod_eq_of_lt h4, Nat.mod_eq_of_lt h5, Nat.mod_eq_of_lt h6,
    Nat.mod_eq_of_lt h7, Nat.mod_eq_of_lt h8, Nat.mod_eq_of_lt h9, Nat.mod_eq_of_lt h10,
    Nat.mod_eq_of_lt h11, Nat.mod_eq_of_lt h12, Nat.mod_eq_of_lt h13, Nat.mod_eq_of_lt h14]

theorem read_bitmap_info_header_encode (f : FILE) (v : BitmapInfoHeader) (r : List Byte)
    (hr : f.rest = encodeBitmapInfoHeader v ++ r) (hv : v.InRange) :
    (read_bitmap_info_header f).1 = v := by
  obtain ⟨h1, h2, h3, h4, h5, h6, h7, h8, h9, h10, h11⟩ := hv
  simp only [read_bitmap_info_header, read_uint32_eq, read_uint16_eq, skip_rest, hr,
    encodeBitmapInfoHeader, List.append_assoc, drop4_le32, drop2_le16, dec32_le32,
    dec16_le16, Nat.mod_eq_of_lt h1, Nat.mod_eq_of_lt h2,
    Nat.mod_eq_of_lt h3, Nat.mod_eq_of_lt h4, Nat.mod_eq_of_lt h5, Nat.mod_eq_of_lt h6,
    Nat.mod_eq_of_lt h7, Nat.mod_eq_of_lt h8, Nat.mod_eq_of_lt h9, Nat.mod_eq_of_lt h10,
    Nat.mod_eq_of_lt h11]

/-! ## The cursor on known bytes -/

theorem rest_mk (data : List Byte) (p : Nat) (e : Bool) : (FILE.mk data p e).rest = data.drop p :=
  rfl

theorem skip_mk (data : List Byte) (p n : Nat) (e : Bool) (h : n ≤ (data.drop p).length) :
    (FILE.mk data p e).skip n = ⟨data, p + n, e⟩ :=
  skip_of_le _ _ h

theorem fseek_mk (data : List Byte) (p n : Nat) (e : Bool) :
    fseek (FILE.mk data p e) n = ⟨data, p + n, false⟩ := rfl

theorem drop_add_of_eq {data a b : List Byte} {p : Nat} (h : data.drop p = a ++ b) :
    data.drop (p + a.length) = b := by
  rw [← List.drop_drop, h, List.drop_left]

theorem drop_add_of_eq_len {data a b : List Byte} {p n : Nat} (h : data.drop p = a ++ b)
    (hn : a.length = n) : data.drop (p + n) = b := by
  subst hn; exact drop_add_of_eq h

theorem pad_length (n : Nat) : (pad n).length = n % 2 := by
  unfold pad
  split <;> simp <;> omega

theorem chunk_length (tag : FourCC) (body : List Byte) :
    (chunk tag body).length = 8 + body.length + body.length % 2 := by
  simp [chunk, bytes_length, le32_length, pad_length]; omega

theorem listChunk_length (sub : FourCC) (body : List Byte) :
    (listChunk sub body).length = 12 + body.length + body.length % 2 := by
  simp [listChunk, chunk_length, bytes_length]; omega

theorem encodeMainHeader_length (m : AVIMainHeader) : (encodeMainHeader m).length = 56 := by
  simp [encodeMainHeader, le32_length]

theorem encodeStreamHeader_length (h : AVIStreamHeader) : (encodeStreamHeader h).length = 56 := by
  simp [encodeStreamHeader, le32_length, le16_length, bytes_length]

theorem encodeBitmapInfoHeader_length (v : BitmapInfoHeader) :
    (encodeBitmapInfoHeader v).length = 40 := by
  simp [encodeBitmapInfoHeader, le32_length, le16_length]

theorem encodeWaveFormatEx_length (a : WaveFormatEx) : (encodeWaveFormatEx a).length = 18 := by
  simp [encodeWaveFormatEx, le32_length, le16_length]

/-- Reading the header of a chunk that is there. -/
theorem read_chunk_header_at (data : List Byte) (p : Nat) (e : Bool) (tag : FourCC)
    (size : Nat) (r : List Byte) (h : data.drop p = tag.bytes ++ (le32 size ++ r))
    (hs : size < 2 ^ 32) :
    read_chunk_header ⟨data, p, e⟩ = (⟨tag, size⟩, ⟨data, p + 8, e⟩) := by
  rw [read_chunk_header_eq, rest_mk, h, decFourCC_append, drop4_bytes, dec32_le32,
    Nat.mod_eq_of_lt hs, skip_mk]
  rw [h]; simp [bytes_length, le32_length]; omega

theorem read_fourcc_at (data : List Byte) (p : Nat) (e : Bool) (old tag : FourCC)
    (r : List Byte) (h : data.drop p = tag.bytes ++ r) :
    read_fourcc ⟨data, p, e⟩ old = (tag, ⟨data, p + 4, e⟩) := by
  rw [read_fourcc_eq, rest_mk, h, decFourCC_append, skip_mk]
  rw [h]; simp [bytes_length]

theorem read_avi_main_header_at (data : List Byte) (p : Nat) (e : Bool) (m : AVIMainHeader)
    (r : List Byte) (h : data.drop p = encodeMainHeader m ++ r) (hm : m.InRange) :
    read_avi_main_header ⟨data, p, e⟩ = (m, ⟨data, p + 56, e⟩) := by
  have h1 := read_avi_main_header_encode ⟨data, p, e⟩ m r h hm
  have h2 := read_avi_main_header_skip ⟨data, p, e⟩
  rw [skip_mk _ _ _ _ (by rw [h]; simp [encodeMainHeader_length])] at h2
  rw [← h1, ← h2]

theorem read_stream_header_at (data : List Byte) (p : Nat) (e : Bool)
    (old hd : AVIStreamHeader) (r : List Byte) (h : data.drop p = encodeStreamHeader hd ++ r)
    (hh : hd.InRange) :
    read_stream_header ⟨data, p, e⟩ old = (hd, ⟨data, p + 56, e⟩) := by
  have h1 := read_stream_header_encode ⟨data, p, e⟩ old hd r h hh
  have h2 := read_stream_header_skip ⟨data, p, e⟩ old
  rw [skip_mk _ _ _ _ (by rw [h]; simp [encodeStreamHeader_length])] at h2
  rw [← h1, ← h2]

theorem read_bitmap_info_header_at (data : List Byte) (p : Nat) (e : Bool)
    (v : BitmapInfoHeader) (r : List Byte) (h : data.drop p = encodeBitmapInfoHeader v ++ r)
    (hv : v.InRange) :
    read_bitmap_info_header ⟨data, p, e⟩ = (v, ⟨data, p + 40, e⟩) := by
  have h1 := read_bitmap_info_header_encode ⟨data, p, e⟩ v r h hv
  have h2 := read_bitmap_info_header_skip ⟨data, p, e⟩
  rw [skip_mk _ _ _ _ (by rw [h]; simp [encodeBitmapInfoHeader_length])] at h2
  rw [← h1, ← h2]

/-- The audio format decoder on the 18 bytes of an encoded record at an even offset. -/
theorem read_wave_format_ex_at (data : List Byte) (p : Nat) (a : WaveFormatEx)
    (r : List Byte) (h : data.drop p = encodeWaveFormatEx a ++ r) (ha : a.InRange)
    (hp : p % 2 = 0) :
    read_wave_format_ex ⟨data, p, false⟩ = (a, ⟨data, p + 18, false⟩) := by
  obtain ⟨h1, h2, h3, h4, h5, h6, h7⟩ := ha
  have hlen : 18 ≤ (data.drop p).length := by rw [h]; simp [encodeWaveFormatEx_length]
  have h16 : (FILE.mk data p false).skip 16 = ⟨data, p + 16, false⟩ :=
    skip_mk _ _ _ _ (by omega)
  have hpar : ¬ (p + 16) % 2 ≠ 0 := by omega
  have h18 : (FILE.mk data (p + 16) false).skip 2 = ⟨data, p + 18, false⟩ := by
    rw [← h16, skip_skip, skip_mk _ _ _ _ (by omega)]
  have hd16 : data.drop (p + 16) = le16 a.size ++ r := by
    rw [← List.drop_drop, h]
    simp only [encodeWaveFormatEx, List.append_assoc]
    rfl
  have hch : ((((((FILE.mk data p false).skip 2).skip 2).skip 4).skip 4).skip 2).skip 2
      = ⟨data, p + 16, false⟩ := by
    simp only [skip_skip]; exact h16
  simp only [read_wave_format_ex, read_uint32_eq, read_uint16_eq, skip_rest, hch,
    ftell, feof, if_neg hpar, Bool.not_false, if_true, h18]
  simp only [rest_mk, h, hd16, encodeWaveFormatEx, List.append_assoc, drop4_le32, drop2_le16,
    dec32_le32, dec16_le16, Nat.mod_eq_of_lt h1, Nat.mod_eq_of_lt h2, Nat.mod_eq_of_lt h3,
    Nat.mod_eq_of_lt h4, Nat.mod_eq_of_lt h5, Nat.mod_eq_of_lt h6, Nat.mod_eq_of_lt h7]

/-! ## The stream-list loop on a well-formed stream list -/

theorem strl_loop_done (bound idx fuel : Nat) (f : FILE) (info : AVIInfo)
    (h : ¬ ftell f < bound) : strl_loop bound idx fuel f info = some (f, info) := by
  cases fuel <;> simp [strl_loop, h]

theorem strl_loop_step (bound idx fuel : Nat) (f : FILE) (info : AVIInfo)
    (h : ftell f < bound) :
    strl_loop bound idx (fuel + 1) f info
      = strl_loop bound idx fuel (strl_body idx f info).1 (strl_body idx f info).2 := by
  rw [strl_loop]; simp only [h, if_true]

theorem align2_mk (size : Nat) (data : List Byte) (q : Nat) :
    align2 size ⟨data, q, false⟩ = ⟨data, q + size % 2, false⟩ := by
  unfold align2
  split
  · rw [fseek_mk]; congr 1; omega
  · congr 1; omega

theorem chunk_split {tag : FourCC} {body r : List Byte} {data : List Byte} {p : Nat}
    (h : data.drop p = chunk tag body ++ r) :
    data.drop p = tag.bytes ++ (le32 body.length ++ (body ++ (pad body.length ++ r))) := by
  rw [h]; simp only [chunk, List.append_assoc]

/-- The walker steps over a chunk it has no decoder for. -/
theorem strl_body_raw (idx : Nat) (data : List Byte) (p : Nat) (info : AVIInfo)
    (tag : FourCC) (body r : List Byte) (h : data.drop p = chunk tag body ++ r)
    (hlen : body.length < 2 ^ 32) (h1 : tag ≠ tagStrh) (h2 : tag ≠ tagStrf) :
    strl_body idx ⟨data, p, false⟩ info = (⟨data, p + (chunk tag body).length, false⟩, info) := by
  have hc := read_chunk_header_at data p false tag body.length _ (chunk_split h) hlen
  simp only [strl_body, hc, fourcc_equals_of_ne h1, fourcc_equals_of_ne h2, fseek_mk, align2_mk,
    chunk_length, Bool.false_eq_true, if_false]
  congr 2; omega

theorem chunk_body_drop {tag : FourCC} {body r : List Byte} {data : List Byte} {p : Nat}
    (h : data.drop p = chunk tag body ++ r) :
    data.drop (p + 8) = body ++ (pad body.length ++ r) := by
  have hs := chunk_split h
  rw [← List.append_assoc] at hs
  exact drop_add_of_eq_len hs rfl

theorem chunk_end_drop {tag : FourCC} {body r : List Byte} {data : List Byte} {p : Nat}
    (h : data.drop p = chunk tag body ++ r) :
    data.drop (p + (chunk tag body).length) = r :=
  drop_add_of_eq h

theorem strl_body_strh (idx : Nat) (data : List Byte) (p : Nat) (info : AVIInfo)
    (hd : AVIStreamHeader) (r : List Byte)
    (h : data.drop p = chunk tagStrh (encodeStreamHeader hd) ++ r) (hh : hd.InRange) :
    strl_body idx ⟨data, p, false⟩ info = (⟨data, p + 64, false⟩, applyStrh idx hd info) := by
  have hs := chunk_split h
  have hb := chunk_body_drop h
  rw [encodeStreamHeader_length] at hs
  have hc := read_chunk_header_at data p false tagStrh 56 _ hs (by decide)
  have hr := read_stream_header_at data (p + 8) false
    (info.streams.getD idx StreamInfo.zero).header hd _ hb hh
  simp only [strl_body, hc, hr, fourcc_equals_self, if_true, applyStrh]
  by_cases hv : hd.type = tagVids
  · simp only [hv, fourcc_equals_self, if_true, align2_mk, Nat.add_assoc, Nat.reduceAdd,
      Nat.reduceMod, Nat.add_zero]
  · by_cases ha : hd.type = tagAuds
    · simp only [hv, ha, fourcc_equals_of_ne hv, fourcc_equals_self, if_true, if_false,
        Bool.false_eq_true, align2_mk, Nat.add_assoc, Nat.reduceAdd, Nat.reduceMod, Nat.add_zero]
      rfl
    · simp only [hv, ha, fourcc_equals_of_ne hv, fourcc_equals_of_ne ha, if_false,
        Bool.false_eq_true, align2_mk, Nat.add_assoc, Nat.reduceAdd, Nat.reduceMod, Nat.add_zero]

theorem getD_set_self (l : List StreamInfo) (idx : Nat) (x d : StreamInfo)
    (h : idx < l.length) : (l.set idx x).getD idx d = x := by
  simp [List.getD_eq_getElem?_getD, List.getElem?_set_self, h]

theorem strl_body_strf_video (idx : Nat) (data : List Byte) (p : Nat) (info : AVIInfo)
    (v : BitmapInfoHeader) (r : List Byte)
    (h : data.drop p = chunk tagStrf (encodeBitmapInfoHeader v) ++ r) (hv : v.InRange)
    (ht : (info.streams.getD idx StreamInfo.zero).header.type = tagVids) :
    strl_body idx ⟨data, p, false⟩ info
      = (⟨data, p + 48, false⟩, applyStrf idx (StreamFormat.video v) info) := by
  have hs := chunk_split h
  have hb := chunk_body_drop h
  rw [encodeBitmapInfoHeader_length] at hs
  have hc := read_chunk_header_at data p false tagStrf 40 _ hs (by decide)
  have hr := read_bitmap_info_header_at data (p + 8) false v _ hb hv
  have hne : fourcc_equals tagStrf tagStrh = false := by decide
  simp only [strl_body, hc, hr, hne, ht, fourcc_equals_self, if_true, if_false, applyStrf,
    Bool.false_eq_true, align2_mk, Nat.add_assoc, Nat.reduceAdd, Nat.reduceMod, Nat.add_zero]

theorem strl_body_strf_audio (idx : Nat) (data : List Byte) (p : Nat) (info : AVIInfo)
    (a : WaveFormatEx) (r : List Byte)
    (h : data.drop p = chunk tagStrf (encodeWaveFormatEx a) ++ r) (ha : a.InRange)
    (hp : p % 2 = 0)
    (ht : (info.streams.getD idx StreamInfo.zero).header.type = tagAuds) :
    strl_body idx ⟨data, p, false⟩ info
      = (⟨data, p + 26, false⟩, applyStrf idx (StreamFormat.audio a) info) := by
  have hs := chunk_split h
  have hb := chunk_body_drop h
  rw [encodeWaveFormatEx_length] at hs
  have hc := read_chunk_header_at data p false tagStrf 18 _ hs (by decide)
  have hr := read_wave_format_ex_at data (p + 8) a _ hb ha (by omega)
  have hne : fourcc_equals tagStrf tagStrh = false := by decide
  have hne2 : fourcc_equals tagAuds tagVids = false := by decide
  simp only [strl_body, hc, hr, hne, hne2, ht, fourcc_equals_self, if_true, if_false, applyStrf,
    Bool.false_eq_true, align2_mk, Nat.add_assoc, Nat.reduceAdd, Nat.reduceMod, Nat.add_zero]

theorem le_of_drop_eq {data a b : List Byte} {p : Nat} (h : data.drop p = a ++ b) :
    a.length ≤ data.length := by
  have h1 : (data.drop p).length = a.length + b.length := by rw [h, List.length_append]
  rw [List.length_drop] at h1
  omega

theorem rawChunksBytes_length_ge (cs : List RawChunk) : cs.length ≤ (rawChunksBytes cs).length := by
  induction cs with
  | nil => simp [rawChunksBytes]
  | cons c cs ih =>
    simp only [rawChunksBytes, List.length_cons, List.length_append, RawChunk.bytes, chunk_length]
    omega

theorem rawChunksBytes_even (cs : List RawChunk) : (rawChunksBytes cs).length % 2 = 0 := by
  induction cs with
  | nil => simp [rawChunksBytes]
  | cons c cs ih =>
    simp only [rawChunksBytes, List.length_append, RawChunk.bytes, chunk_length]
    omega

/-- The loop steps over a run of chunks without decoder. -/
theorem strl_loop_raws (idx : Nat) (data : List Byte) (r : List Byte) (info : AVIInfo)
    (hdata : data.length < 2 ^ 32) (cs : List RawChunk) :
    ∀ (p fuel : Nat), data.drop p = rawChunksBytes cs ++ r →
      (∀ c ∈ cs, c.tag ≠ tagStrh ∧ c.tag ≠ tagStrf) → cs.length ≤ fuel →
      strl_loop (p + (rawChunksBytes cs).length) idx fuel ⟨data, p, false⟩ info
        = some (⟨data, p + (rawChunksBytes cs).length, false⟩, info) := by
  induction cs with
  | nil =>
    intro p fuel _ _ _
    exact strl_loop_done _ _ _ _ _ (by simp [ftell, rawChunksBytes])
  | cons c cs ih =>
    intro p fuel h htags hfuel
    obtain ⟨fuel, rfl⟩ : ∃ k, fuel = k + 1 := ⟨fuel - 1, by simp at hfuel; omega⟩
    have hc : data.drop p = chunk c.tag c.body ++ (rawChunksBytes cs ++ r) := by
      rw [h]; simp only [rawChunksBytes, RawChunk.bytes, List.append_assoc]
    have hlen := le_of_drop_eq hc
    rw [chunk_length] at hlen
    have hb := strl_body_raw idx data p info c.tag c.body _ hc (by omega)
      (htags c (List.mem_cons_self _ _)).1 (htags c (List.mem_cons_self _ _)).2
    have hlt : ftell (FILE.mk data p false) < p + (rawChunksBytes (c :: cs)).length := by
      simp only [ftell, rawChunksBytes, RawChunk.bytes, List.length_append, chunk_length]; omega
    rw [strl_loop_step _ _ _ _ _ hlt, hb]
    have hnext := ih (p + (chunk c.tag c.body).length) fuel (chunk_end_drop hc)
      (fun c1 h1 => htags c1 (List.mem_cons_of_mem _ h1)) (by simp at hfuel; omega)
    have he : p + (rawChunksBytes (c :: cs)).length
        = p + (chunk c.tag c.body).length + (rawChunksBytes cs).length := by
      simp only [rawChunksBytes, RawChunk.bytes, List.length_append]; omega
    rw [he]
    exact hnext

theorem applyStrh_streams (idx : Nat) (hd : AVIStreamHeader) (info : AVIInfo) :
    (applyStrh idx hd info).streams
      = info.streams.set idx
          { info.streams.getD idx StreamInfo.zero with header := hd, type := hd.type } := by
  unfold applyStrh
  simp only
  split
  · rfl
  · split <;> rfl

theorem applyStrh_header (idx : Nat) (hd : AVIStreamHeader) (info : AVIInfo)
    (hidx : idx < info.streams.length) :
    ((applyStrh idx hd info).streams.getD idx StreamInfo.zero).header = hd := by
  rw [applyStrh_streams, getD_set_self _ _ _ _ hidx]

theorem streamBody_length (s : StreamDoc) :
    s.body.length = 64 + s.format.bytes.length + (rawChunksBytes s.extra).length := by
  simp only [StreamDoc.body, List.length_append, chunk_length, encodeStreamHeader_length]
  omega

theorem formatBytes_length (fmt : StreamFormat) :
    fmt.bytes.length = match fmt with
      | .zeroed => 0
      | .video _ => 48
      | .audio _ => 26 := by
  cases fmt <;>
    simp [StreamFormat.bytes, chunk_length, encodeBitmapInfoHeader_length,
      encodeWaveFormatEx_length]

theorem streamBody_even (s : StreamDoc) : s.body.length % 2 = 0 := by
  have h1 := rawChunksBytes_even s.extra
  have h2 := formatBytes_length s.format
  rw [streamBody_length]
  cases hf : s.format <;> rw [hf] at h2 <;> simp only at h2 <;> omega

/-- The innermost loop on the content of a well-formed stream list: the header, the format
chunk and the further chunks are consumed, and the loop ends at the end of the list. -/
theorem strl_loop_stream (idx : Nat) (data : List Byte) (r : List Byte) (info : AVIInfo)
    (hdata : data.length < 2 ^ 32) (s : StreamDoc) (hwf : s.WF) (p fuel : Nat)
    (h : data.drop p = s.body ++ r) (hp : p % 2 = 0) (hidx : idx < info.streams.length)
    (hfuel : s.body.length ≤ fuel) :
    strl_loop (p + s.body.length) idx fuel ⟨data, p, false⟩ info
      = some (⟨data, p + s.body.length, false⟩,
          applyStrf idx s.format (applyStrh idx s.header info)) := by
  obtain ⟨hh, hfmt, htags⟩ := hwf
  have hlen := streamBody_length s
  have hflen := formatBytes_length s.format
  have hraws := rawChunksBytes_length_ge s.extra
  obtain ⟨fuel, rfl⟩ : ∃ k, fuel = k + 1 := ⟨fuel - 1, by omega⟩
  have h0 : data.drop p
      = chunk tagStrh (encodeStreamHeader s.header)
          ++ (s.format.bytes ++ (rawChunksBytes s.extra ++ r)) := by
    rw [h]; simp only [StreamDoc.body, List.append_assoc]
  have hlt : ftell (FILE.mk data p false) < p + s.body.length := by
    simp only [ftell]; omega
  rw [strl_loop_step _ _ _ _ _ hlt, strl_body_strh idx data p info s.header _ h0 hh]
  have h1 : data.drop (p + 64) = s.format.bytes ++ (rawChunksBytes s.extra ++ r) := by
    have := chunk_end_drop h0
    rwa [chunk_length, encodeStreamHeader_length] at this
  have hty := applyStrh_header idx s.header info hidx
  cases hf : s.format with
  | zeroed =>
    rw [hf] at h1 hflen hlen
    simp only [StreamFormat.bytes, List.nil_append] at h1
    simp only at hflen
    have := strl_loop_raws idx data r (applyStrh idx s.header info) hdata s.extra (p + 64) fuel
      h1 htags (by omega)
    have he : p + s.body.length = p + 64 + (rawChunksBytes s.extra).length := by omega
    rw [he, this]
    rfl
  | video v =>
    rw [hf] at h1 hflen hfmt hlen
    simp only [StreamFormat.bytes] at h1
    simp only at hflen
    obtain ⟨fuel, rfl⟩ : ∃ k, fuel = k + 1 := ⟨fuel - 1, by omega⟩
    have hlt2 : ftell (FILE.mk data (p + 64) false) < p + s.body.length := by
      simp only [ftell]; omega
    rw [strl_loop_step _ _ _ _ _ hlt2,
      strl_body_strf_video idx data (p + 64) _ v _ h1 hfmt.2 (by rw [hty]; exact hfmt.1)]
    have h2 : data.drop (p + 64 + 48) = rawChunksBytes s.extra ++ r := by
      have := chunk_end_drop h1
      rwa [chunk_length, encodeBitmapInfoHeader_length] at this
    have := strl_loop_raws idx data r
      (applyStrf idx (StreamFormat.video v) (applyStrh idx s.header info)) hdata s.extra
      (p + 64 + 48) fuel h2 htags (by omega)
    have he : p + s.body.length = p + 64 + 48 + (rawChunksBytes s.extra).length := by omega
    rw [he, this]
  | audio a =>
    rw [hf] at h1 hflen hfmt hlen
    simp only [StreamFormat.bytes] at h1
    simp only at hflen
    obtain ⟨fuel, rfl⟩ : ∃ k, fuel = k + 1 := ⟨fuel - 1, by omega⟩
    have hlt2 : ftell (FILE.mk data (p + 64) false) < p + s.body.length := by
      simp only [ftell]; omega
    rw [strl_loop_step _ _ _ _ _ hlt2,
      strl_body_strf_audio idx data (p + 64) _ a _ h1 hfmt.2 (by omega)
        (by rw [hty]; exact hfmt.1)]
    have h2 : data.drop (p + 64 + 26) = rawChunksBytes s.extra ++ r := by
      have := chunk_end_drop h1
      rwa [chunk_length, encodeWaveFormatEx_length] at this
    have := strl_loop_raws idx data r
      (applyStrf idx (StreamFormat.audio a) (applyStrh idx s.header info)) hdata s.extra
      (p + 64 + 26) fuel h2 htags (by omega)
    have he : p + s.body.length = p + 64 + 26 + (rawChunksBytes s.extra).length := by omega
    rw [he, this]

/-! ## The header-list loop on a well-formed header list -/

theorem sub32_add (n k : Nat) (hk : k ≤ 2 ^ 32) (h : k + n < 2 ^ 32) : sub32 (k + n) k = n := by
  unfold sub32
  have : k + n + (2 ^ 32 - k) = n + 2 ^ 32 := by omega
  rw [this, Nat.add_mod_right, Nat.mod_eq_of_lt (by omega)]

theorem list_split {sub : FourCC} {body r : List Byte} {data : List Byte} {p : Nat}
    (h : data.drop p = listChunk sub body ++ r) :
    data.drop p
      = tagLIST.bytes ++ (le32 (4 + body.length) ++ (sub.bytes ++ (body ++
          (pad body.length ++ r)))) := by
  rw [h]
  have hp : pad (4 + body.length) = pad body.length := by
    unfold pad
    have : (4 + body.length) % 2 = body.length % 2 := by omega
    rw [this]
  simp only [listChunk, chunk, List.append_assoc, List.length_append, bytes_length, hp]

theorem list_sub_drop {sub : FourCC} {body r : List Byte} {data : List Byte} {p : Nat}
    (h : data.drop p = listChunk sub body ++ r) :
    data.drop (p + 8) = sub.bytes ++ (body ++ (pad body.length ++ r)) := by
  have hs := list_split h
  rw [← List.append_assoc] at hs
  exact drop_add_of_eq_len hs rfl

theorem list_body_drop {sub : FourCC} {body r : List Byte} {data : List Byte} {p : Nat}
    (h : data.drop p = listChunk sub body ++ r) :
    data.drop (p + 12) = body ++ (pad body.length ++ r) := by
  have hs := list_sub_drop h
  exact drop_add_of_eq_len (p := p + 8) hs rfl

theorem hdrl_loop_done (bound fuel n : Nat) (f : FILE) (info : AVIInfo)
    (h : ¬ ftell f < bound) : hdrl_loop bound fuel n f info = some (f, info) := by
  cases n <;> simp [hdrl_loop, h]

theorem hdrl_loop_step (bound fuel n : Nat) (f : FILE) (info : AVIInfo)
    (h : ftell f < bound) :
    hdrl_loop bound fuel (n + 1) f info
      = (hdrl_body fuel f info).bind fun r => hdrl_loop bound fuel n r.1 r.2 := by
  rw [hdrl_loop]; simp only [h, if_true]

theorem applyStrh_length (idx : Nat) (hd : AVIStreamHeader) (info : AVIInfo) :
    (applyStrh idx hd info).streams.length = info.streams.length := by
  rw [applyStrh_streams, List.length_set]

theorem applyStrf_length (idx : Nat) (fmt : StreamFormat) (info : AVIInfo) :
    (applyStrf idx fmt info).streams.length = info.streams.length := by
  cases fmt <;> simp [applyStrf, List.length_set]

theorem streamApply_length (s : StreamDoc) (info : AVIInfo) :
    (s.apply info).streams.length = info.streams.length := by
  simp only [StreamDoc.apply, applyStrf_length, applyStrh_length]

theorem hdrlItemApply_length (i : HdrlItem) (info : AVIInfo) :
    (i.apply info).streams.length = info.streams.length := by
  cases i with
  | avih m => rfl
  | strl s =>
    simp only [HdrlItem.apply]
    split
    · exact streamApply_length s info
    · rfl
  | raw c => rfl
  | list sub body => rfl

theorem hdrlItem_length (i : HdrlItem) :
    8 ≤ i.bytes.length ∧ i.bytes.length % 2 = 0 := by
  cases i with
  | avih m => simp [HdrlItem.bytes, chunk_length, encodeMainHeader_length]
  | strl s =>
    have := streamBody_even s
    simp only [HdrlItem.bytes, StreamDoc.bytes, listChunk_length]
    omega
  | raw c => simp only [HdrlItem.bytes, RawChunk.bytes, chunk_length]; omega
  | list sub body => simp only [HdrlItem.bytes, listChunk_length]; omega

/-- One iteration of the header-list loop on a well-formed item: the item is consumed whole and
the aggregate changes as the item says. -/
theorem hdrl_body_item (fuel : Nat) (data : List Byte) (r : List Byte) (info : AVIInfo)
    (hdata : data.length < 2 ^ 32) (item : HdrlItem) (hwf : item.WF) (p : Nat)
    (h : data.drop p = item.bytes ++ r) (hp : p % 2 = 0)
    (hstreams : info.streams.length = MAX_STREAMS) (hfuel : item.bytes.length ≤ fuel) :
    hdrl_body fuel ⟨data, p, false⟩ info
      = some (⟨data, p + item.bytes.length, false⟩, item.apply info) := by
  have hle := le_of_drop_eq h
  cases item with
  | avih m =>
    simp only [HdrlItem.bytes] at h hle ⊢
    have hs := chunk_split h
    have hb := chunk_body_drop h
    rw [encodeMainHeader_length] at hs
    have hc := read_chunk_header_at data p false tagAvih 56 _ hs (by decide)
    have hr := read_avi_main_header_at data (p + 8) false m _ hb hwf
    simp only [hdrl_body, hc, hr, fourcc_equals_self, if_true, Option.map_some', align2_mk,
      chunk_length, encodeMainHeader_length, HdrlItem.apply, Nat.add_assoc, Nat.reduceAdd,
      Nat.reduceMod, Nat.add_zero]
  | raw c =>
    simp only [HdrlItem.bytes, RawChunk.bytes] at h hle ⊢
    rw [chunk_length] at hle
    have hc := read_chunk_header_at data p false c.tag c.body.length _ (chunk_split h) (by omega)
    simp only [hdrl_body, hc, fourcc_equals_of_ne hwf.1, fourcc_equals_of_ne hwf.2, fseek_mk,
      Option.map_some', align2_mk, chunk_length, HdrlItem.apply, Bool.false_eq_true, if_false]
    congr 3; omega
  | list sub body =>
    simp only [HdrlItem.bytes] at h hle ⊢
    rw [listChunk_length] at hle
    have hc := read_chunk_header_at data p false tagLIST (4 + body.length) _ (list_split h)
      (by omega)
    have hf := read_fourcc_at data (p + 8) false FourCC.zero sub _ (list_sub_drop h)
    have hne : fourcc_equals tagLIST tagAvih = false := by decide
    have hwf1 : sub ≠ tagStrl := hwf
    simp only [hdrl_body, hc, hf, hne, fourcc_equals_self, fourcc_equals_of_ne hwf1, fseek_mk,
      Option.map_some', align2_mk, listChunk_length, HdrlItem.apply, Bool.false_eq_true,
      if_false, if_true, Bool.false_and, sub32_add body.length 4 (by decide) (by omega)]
    congr 3; omega
  | strl s =>
    simp only [HdrlItem.bytes, StreamDoc.bytes] at h hle hfuel ⊢
    rw [listChunk_length] at hle hfuel
    have heven := streamBody_even s
    have hc := read_chunk_header_at data p false tagLIST (4 + s.body.length) _ (list_split h)
      (by omega)
    have hf := read_fourcc_at data (p + 8) false FourCC.zero tagStrl _ (list_sub_drop h)
    have hne : fourcc_equals tagLIST tagAvih = false := by decide
    by_cases hcap : info.stream_count < MAX_STREAMS
    · have hl := strl_loop_stream info.stream_count data _ info hdata s hwf (p + 8 + 4) fuel
        (list_body_drop h) (by omega) (by omega) (by omega)
      have hb : p + (4 + s.body.length) + 8 = p + 8 + 4 + s.body.length := by omega
      simp only [hdrl_body, hc, hf, hne, fourcc_equals_self, ftell, hcap, decide_True,
        Bool.and_self, if_true, if_false, Bool.false_eq_true, hb, hl, Option.map_some',
        align2_mk, HdrlItem.apply, StreamDoc.apply, listChunk_length]
      have hpos : p + 8 + 4 + s.body.length + (4 + s.body.length) % 2
          = p + (12 + s.body.length + s.body.length % 2) := by omega
      rw [hpos]
    · simp only [hdrl_body, hc, hf, hne, fourcc_equals_self, hcap, decide_False,
        Bool.and_false, if_true, if_false, Bool.false_eq_true, fseek_mk, Option.map_some',
        align2_mk, HdrlItem.apply, listChunk_length,
        sub32_add s.body.length 4 (by decide) (by omega)]
      congr 3; omega

theorem hdrlItemsBytes_length (items : List HdrlItem) :
    items.length ≤ (hdrlItemsBytes items).length ∧ (hdrlItemsBytes items).length % 2 = 0 := by
  induction items with
  | nil => simp [hdrlItemsBytes]
  | cons i is ih =>
    have := hdrlItem_length i
    simp only [hdrlItemsBytes, List.length_cons, List.length_append]
    omega

/-- The header-list loop on a well-formed header list: every item is consumed in file order and
the loop ends at the end of the list. -/
theorem hdrl_loop_items (fuel : Nat) (data : List Byte) (r : List Byte)
    (hdata : data.length < 2 ^ 32) (items : List HdrlItem) :
    ∀ (p n : Nat) (info : AVIInfo), data.drop p = hdrlItemsBytes items ++ r →
      (∀ i ∈ items, i.WF) → p % 2 = 0 → info.streams.length = MAX_STREAMS →
      (hdrlItemsBytes items).length ≤ fuel → items.length ≤ n →
      hdrl_loop (p + (hdrlItemsBytes items).length) fuel n ⟨data, p, false⟩ info
        = some (⟨data, p + (hdrlItemsBytes items).length, false⟩, hdrlItemsApply items info) := by
  induction items with
  | nil =>
    intro p n info _ _ _ _ _ _
    exact hdrl_loop_done _ _ _ _ _ (by simp [ftell, hdrlItemsBytes])
  | cons i is ih =>
    intro p n info h hwf hp hstreams hfuel hn
    obtain ⟨n, rfl⟩ : ∃ k, n = k + 1 := ⟨n - 1, by simp at hn; omega⟩
    have hi := hdrlItem_length i
    have hc : data.drop p = i.bytes ++ (hdrlItemsBytes is ++ r) := by
      rw [h]; simp only [hdrlItemsBytes, List.append_assoc]
    simp only [hdrlItemsBytes, List.length_append] at hfuel
    have hb := hdrl_body_item fuel data _ info hdata i (hwf i (List.mem_cons_self _ _)) p hc hp
      hstreams (by omega)
    have hlt : ftell (FILE.mk data p false) < p + (hdrlItemsBytes (i :: is)).length := by
      simp only [ftell, hdrlItemsBytes, List.length_append]; omega
    rw [hdrl_loop_step _ _ _ _ _ hlt, hb, Option.some_bind]
    have hnext := ih (p + i.bytes.length) n (i.apply info) (drop_add_of_eq hc)
      (fun j hj => hwf j (List.mem_cons_of_mem _ hj)) (by omega)
      (by rw [hdrlItemApply_length]; exact hstreams) (by omega) (by simp at hn; omega)
    have he : p + (hdrlItemsBytes (i :: is)).length
        = p + i.bytes.length + (hdrlItemsBytes is).length := by
      simp only [hdrlItemsBytes, List.length_append]; omega
    rw [he]
    exact hnext

/-! ## The top-level loop on a well-formed file -/

theorem top_loop_done (bound fuel n : Nat) (f : FILE) (info : AVIInfo)
    (h : ¬ ftell f < bound) : top_loop bound fuel n f info = some (f, info) := by
  cases n <;> simp [top_loop, h]

theorem top_loop_step (bound fuel n : Nat) (f : FILE) (info : AVIInfo)
    (h : ftell f < bound) :
    top_loop bound fuel (n + 1) f info
      = (top_body fuel f info).bind fun r => top_loop bound fuel n r.1 r.2 := by
  rw [top_loop]; simp only [h, if_true]

theorem hdrlItemsApply_length (items : List HdrlItem) :
    ∀ info : AVIInfo, (hdrlItemsApply items info).streams.length = info.streams.length := by
  induction items with
  | nil => intro info; rfl
  | cons i is ih =>
    intro info
    simp only [hdrlItemsApply]
    rw [ih, hdrlItemApply_length]

theorem topItemApply_length (p : Nat) (i : TopItem) (info : AVIInfo) :
    (i.apply p info).streams.length = info.streams.length := by
  cases i with
  | hdrl items => exact hdrlItemsApply_length items info
  | movi payload => rfl
  | raw c => rfl
  | list sub body => rfl

theorem topItem_length (i : TopItem) : 8 ≤ i.bytes.length ∧ i.bytes.length % 2 = 0 := by
  cases i with
  | hdrl items =>
    have := hdrlItemsBytes_length items
    simp only [TopItem.bytes, listChunk_length]
    omega
  | movi payload => simp only [TopItem.bytes, listChunk_length]; omega
  | raw c => simp only [TopItem.bytes, RawChunk.bytes, chunk_length]; omega
  | list sub body => simp only [TopItem.bytes, listChunk_length]; omega

theorem add_le_of_drop_eq {data a b : List Byte} {p : Nat} (h : data.drop p = a ++ b)
    (ha : 0 < a.length) : p + a.length ≤ data.length := by
  have h1 : (data.drop p).length = a.length + b.length := by rw [h, List.length_append]
  rw [List.length_drop] at h1
  omega

/-- One iteration of the top-level loop on a well-formed item that starts at offset `p`. -/
theorem top_body_item (fuel : Nat) (data : List Byte) (r : List Byte) (info : AVIInfo)
    (hdata : data.length < 2 ^ 32) (item : TopItem) (hwf : item.WF) (p : Nat)
    (h : data.drop p = item.bytes ++ r) (hp : p % 2 = 0)
    (hstreams : info.streams.length = MAX_STREAMS) (hfuel : item.bytes.length ≤ fuel) :
    top_body fuel ⟨data, p, false⟩ info
      = some (⟨data, p + item.bytes.length, false⟩, item.apply p info) := by
  have hle := add_le_of_drop_eq h (by have := topItem_length item; omega)
  cases item with
  | raw c =>
    simp only [TopItem.bytes, RawChunk.bytes] at h hle ⊢
    rw [chunk_length] at hle
    have hc := read_chunk_header_at data p false c.tag c.body.length _ (chunk_split h) (by omega)
    have hwf1 : c.tag ≠ tagLIST := hwf
    simp only [top_body, hc, fourcc_equals_of_ne hwf1, fseek_mk,
      Option.map_some', align2_mk, chunk_length, TopItem.apply, Bool.false_eq_true, if_false]
    have hpos : p + 8 + c.body.length + c.body.length % 2
        = p + (8 + c.body.length + c.body.length % 2) := by omega
    rw [hpos]
  | list sub body =>
    simp only [TopItem.bytes] at h hle ⊢
    rw [listChunk_length] at hle
    have hc := read_chunk_header_at data p false tagLIST (4 + body.length) _ (list_split h)
      (by omega)
    have hf := read_fourcc_at data (p + 8) false FourCC.zero sub _ (list_sub_drop h)
    simp only [top_body, hc, hf, fourcc_equals_self, fourcc_equals_of_ne hwf.1,
      fourcc_equals_of_ne hwf.2, fseek_mk,
      Option.map_some', align2_mk, listChunk_length, TopItem.apply, Bool.false_eq_true,
      if_false, if_true, sub32_add body.length 4 (by decide) (by omega)]
    have hpos : p + 8 + 4 + body.length + (4 + body.length) % 2
        = p + (12 + body.length + body.length % 2) := by omega
    rw [hpos]
  | movi payload =>
    simp only [TopItem.bytes] at h hle ⊢
    rw [listChunk_length] at hle
    have hc := read_chunk_header_at data p false tagLIST (4 + payload.length) _ (list_split h)
      (by omega)
    have hf := read_fourcc_at data (p + 8) false FourCC.zero tagMovi _ (list_sub_drop h)
    have hne : fourcc_equals tagMovi tagHdrl = false := by decide
    have hoff : (p + 8 + 4 - 4) % 2 ^ 32 = p + 8 := by
      rw [Nat.add_sub_cancel, Nat.mod_eq_of_lt (by omega)]
    simp only [top_body, hc, hf, hne, fourcc_equals_self, fseek_mk, ftell, hoff,
      Option.map_some', align2_mk, listChunk_length, TopItem.apply, Bool.false_eq_true,
      if_false, if_true, sub32_add payload.length 4 (by decide) (by omega)]
    have hpos : p + 8 + 4 + payload.length + (4 + payload.length) % 2
        = p + (12 + payload.length + payload.length % 2) := by omega
    rw [hpos]
  | hdrl items =>
    simp only [TopItem.bytes] at h hle hfuel ⊢
    rw [listChunk_length] at hle hfuel
    have hlen := hdrlItemsBytes_length items
    have hc := read_chunk_header_at data p false tagLIST (4 + (hdrlItemsBytes items).length) _
      (list_split h) (by omega)
    have hf := read_fourcc_at data (p + 8) false FourCC.zero tagHdrl _ (list_sub_drop h)
    have hl := hdrl_loop_items fuel data _ hdata items (p + 8 + 4) fuel info
      (list_body_drop h) hwf (by omega) hstreams (by omega) (by omega)
    have hb : p + (4 + (hdrlItemsBytes items).length) + 8
        = p + 8 + 4 + (hdrlItemsBytes items).length := by omega
    simp only [top_body, hc, hf, fourcc_equals_self, ftell, if_true, hb, hl, Option.map_some',
      align2_mk, TopItem.apply, listChunk_length]
    have hpos : p + 8 + 4 + (hdrlItemsBytes items).length
          + (4 + (hdrlItemsBytes items).length) % 2
        = p + (12 + (hdrlItemsBytes items).length + (hdrlItemsBytes items).length % 2) := by
      omega
    rw [hpos]

/-! ## The envelope checks -/

theorem fopen_rest (data : List Byte) : (fopen data).rest = data := rfl

theorem decFourCC_bytes (old : FourCC) (l : List Byte) (h : 4 ≤ l.length) :
    (decFourCC old l).bytes = l.take 4 := by
  match l, h with
  | a :: b :: c :: d :: r, _ => simp [decFourCC, FourCC.bytes]

/-- A tag without NUL characters is read from the stream exactly when its four octets
are there. -/
theorem fourcc_equals_dec_iff (l : List Byte) (t : FourCC)
    (h0 : t.c0 ≠ 0) (h1 : t.c1 ≠ 0) (h2 : t.c2 ≠ 0) (h3 : t.c3 ≠ 0) :
    fourcc_equals (decFourCC FourCC.zero l) t = true ↔ l.take 4 = t.bytes := by
  obtain ⟨t0, t1, t2, t3⟩ := t
  simp only at h0 h1 h2 h3
  match l with
  | [] => simp [fourcc_equals, decFourCC, FourCC.bytes, FourCC.zero]; intro h; exact absurd h.symm h0
  | [a] =>
    simp [fourcc_equals, decFourCC, FourCC.bytes, FourCC.zero]
    intro _ h; exact absurd h.symm h1
  | [a, b] =>
    simp [fourcc_equals, decFourCC, FourCC.bytes, FourCC.zero]
    intro _ _ h; exact absurd h.symm h2
  | [a, b, c] =>
    simp [fourcc_equals, decFourCC, FourCC.bytes, FourCC.zero]
    intro _ _ _ h; exact absurd h.symm h3
  | a :: b :: c :: d :: r => simp [fourcc_equals, decFourCC, FourCC.bytes]

theorem riff_check_iff (data : List Byte) :
    fourcc_equals (read_chunk_header (fopen data)).1.id tagRIFF = true
      ↔ data.take 4 = tagRIFF.bytes := by
  rw [read_chunk_header_eq]
  exact fourcc_equals_dec_iff _ _ (by decide) (by decide) (by decide) (by decide)

theorem form_check_iff (data : List Byte) :
    fourcc_equals (read_fourcc (read_chunk_header (fopen data)).2 FourCC.zero).1 tagAVI = true
      ↔ (data.drop 8).take 4 = tagAVI.bytes := by
  rw [read_chunk_header_eq, read_fourcc_eq, skip_rest, fopen_rest]
  exact fourcc_equals_dec_iff _ _ (by decide) (by decide) (by decide) (by decide)

/-- The shape of every run of `parse_avi_file`. -/
theorem parse_avi_file_eq (fuel : Nat) (data : List Byte) :
    parse_avi_file fuel data =
      if data.take 4 = tagRIFF.bytes then
        if (data.drop 8).take 4 = tagAVI.bytes then
          (top_loop ((dec32 (data.drop 4) + 8) % 2 ^ 32) fuel fuel ((fopen data).skip 12)
            AVIInfo.zero).map fun r => (0, r.2)
        else some (-1, AVIInfo.zero)
      else some (-1, AVIInfo.zero) := by
  have hr := riff_check_iff data
  have hf := form_check_iff data
  unfold parse_avi_file
  by_cases h1 : data.take 4 = tagRIFF.bytes
  · by_cases h2 : (data.drop 8).take 4 = tagAVI.bytes
    · simp only [hr.2 h1, hf.2 h2, h1, h2, if_true, Bool.not_true]
      simp only [read_chunk_header_eq, read_fourcc_eq, skip_skip, fopen_rest]
      rfl
    · have : fourcc_equals (read_fourcc (read_chunk_header (fopen data)).2 FourCC.zero).1 tagAVI
          = false := by
        rw [Bool.eq_false_iff]; exact fun h => h2 (hf.1 h)
      simp [hr.2 h1, this, h1, h2]
  · have : fourcc_equals (read_chunk_header (fopen data)).1.id tagRIFF = false := by
      rw [Bool.eq_false_iff]; exact fun h => h1 (hr.1 h)
    simp [this, h1]

theorem topItemsBytes_length (items : List TopItem) :
    items.length ≤ (topItemsBytes items).length ∧ (topItemsBytes items).length % 2 = 0 := by
  induction items with
  | nil => simp [topItemsBytes]
  | cons i is ih =>
    have := topItem_length i
    simp only [topItemsBytes, List.length_cons, List.length_append]
    omega

/-- The top-level loop on the items of a well-formed file. -/
theorem top_loop_items (fuel : Nat) (data : List Byte) (r : List Byte)
    (hdata : data.length < 2 ^ 32) (items : List TopItem) :
    ∀ (p n : Nat) (info : AVIInfo), data.drop p = topItemsBytes items ++ r →
      (∀ i ∈ items, i.WF) → p % 2 = 0 → info.streams.length = MAX_STREAMS →
      (topItemsBytes items).length ≤ fuel → items.length ≤ n →
      top_loop (p + (topItemsBytes items).length) fuel n ⟨data, p, false⟩ info
        = some (⟨data, p + (topItemsBytes items).length, false⟩, topItemsApply p items info) := by
  induction items with
  | nil =>
    intro p n info _ _ _ _ _ _
    exact top_loop_done _ _ _ _ _ (by simp [ftell, topItemsBytes])
  | cons i is ih =>
    intro p n info h hwf hp hstreams hfuel hn
    obtain ⟨n, rfl⟩ : ∃ k, n = k + 1 := ⟨n - 1, by simp at hn; omega⟩
    have hi := topItem_length i
    have hc : data.drop p = i.bytes ++ (topItemsBytes is ++ r) := by
      rw [h]; simp only [topItemsBytes, List.append_assoc]
    simp only [topItemsBytes, List.length_append] at hfuel
    have hb := top_body_item fuel data _ info hdata i (hwf i (List.mem_cons_self _ _)) p hc hp
      hstreams (by omega)
    have hlt : ftell (FILE.mk data p false) < p + (topItemsBytes (i :: is)).length := by
      simp only [ftell, topItemsBytes, List.length_append]; omega
    rw [top_loop_step _ _ _ _ _ hlt, hb, Option.some_bind]
    have hnext := ih (p + i.bytes.length) n (i.apply p info) (drop_add_of_eq hc)
      (fun j hj => hwf j (List.mem_cons_of_mem _ hj)) (by omega)
      (by rw [topItemApply_length]; exact hstreams) (by omega) (by simp at hn; omega)
    have he : p + (topItemsBytes (i :: is)).length
        = p + i.bytes.length + (topItemsBytes is).length := by
      simp only [topItemsBytes, List.length_append]; omega
    rw [he]
    exact hnext

theorem aviBytes_length (items : List TopItem) :
    (aviBytes items).length = 12 + (topItemsBytes items).length := by
  simp only [aviBytes, List.length_append, bytes_length, le32_length]

/-- The walker on a well-formed file: it returns 0 and the aggregate is the one the description
of the file determines, for every fuel that is at least the length of the file. -/
theorem parse_wellFormed (items : List TopItem) (hwf : WellFormed items) (fuel : Nat)
    (hfuel : (aviBytes items).length ≤ fuel) :
    parse_avi_file fuel (aviBytes items) = some (0, aviInfoOf items) := by
  obtain ⟨hitems, hlen⟩ := hwf
  have hl := aviBytes_length items
  have hcount := topItemsBytes_length items
  have h1 : (aviBytes items).take 4 = tagRIFF.bytes := by
    simp only [aviBytes, List.append_assoc]
    exact List.take_left' rfl
  have h2 : ((aviBytes items).drop 8).take 4 = tagAVI.bytes := by
    simp only [aviBytes, List.append_assoc]
    rw [← List.append_assoc, List.drop_left' (by rfl)]
    exact List.take_left' rfl
  have h3 : dec32 ((aviBytes items).drop 4) = 4 + (topItemsBytes items).length := by
    simp only [aviBytes, List.append_assoc, drop4_bytes, dec32_le32]
    exact Nat.mod_eq_of_lt (by omega)
  have h4 : (aviBytes items).drop 12 = topItemsBytes items ++ [] := by
    simp only [aviBytes, List.append_assoc, List.append_nil]
    rw [← List.append_assoc, ← List.append_assoc, List.drop_left' (by rfl)]
  have h5 : (fopen (aviBytes items)).skip 12 = ⟨aviBytes items, 0 + 12, false⟩ :=
    skip_mk _ _ _ _ (by simp only [List.drop_zero]; omega)
  have hloop := top_loop_items fuel (aviBytes items) [] hlen items 12 fuel AVIInfo.zero h4 hitems
    (by decide) (by rfl) (by omega) (by omega)
  have hb : (4 + (topItemsBytes items).length + 8) % 2 ^ 32 = 12 + (topItemsBytes items).length := by
    rw [Nat.mod_eq_of_lt (by omega)]; omega
  rw [parse_avi_file_eq, if_pos h1, if_pos h2, h3, h5, hb, Nat.zero_add, hloop]
  rfl

/-! ## The aggregate of a well-formed file -/

theorem sameStreams_refl (a : AVIInfo) : SameStreams a a := ⟨rfl, rfl, rfl, rfl, rfl⟩

theorem applyStrh_same (idx : Nat) (hd : AVIStreamHeader) (a b : AVIInfo)
    (h : SameStreams a b) : SameStreams (applyStrh idx hd a) (applyStrh idx hd b) := by
  obtain ⟨h1, h2, h3, h4, h5⟩ := h
  unfold applyStrh SameStreams
  simp only
  split_ifs <;> simp [h1, h2, h3, h4, h5]

theorem applyStrf_same (idx : Nat) (fmt : StreamFormat) (a b : AVIInfo)
    (h : SameStreams a b) : SameStreams (applyStrf idx fmt a) (applyStrf idx fmt b) := by
  obtain ⟨h1, h2, h3, h4, h5⟩ := h
  cases fmt <;> simp [applyStrf, SameStreams, h1, h2, h3, h4, h5]

theorem applyStrh_count (idx : Nat) (hd : AVIStreamHeader) (a : AVIInfo) :
    (applyStrh idx hd a).stream_count = a.stream_count := by
  unfold applyStrh
  simp only
  split_ifs <;> rfl

theorem applyStrf_count (idx : Nat) (fmt : StreamFormat) (a : AVIInfo) :
    (applyStrf idx fmt a).stream_count = a.stream_count := by
  cases fmt <;> rfl

theorem streamApply_same (s : StreamDoc) (a b : AVIInfo) (h : SameStreams a b) :
    SameStreams (s.apply a) (s.apply b) := by
  have hc : a.stream_count = b.stream_count := h.1
  have h1 := applyStrf_same b.stream_count s.format _ _
    (applyStrh_same b.stream_count s.header a b h)
  obtain ⟨g1, g2, g3, g4, g5⟩ := h1
  simp only [StreamDoc.apply, SameStreams, hc]
  exact ⟨by rw [g1], g2, g3, g4, g5⟩

theorem hdrlItemsApply_same (items : List HdrlItem) :
    ∀ a b : AVIInfo, SameStreams a b →
      SameStreams (hdrlItemsApply items a) (applyStreams (hdrlStreams items) b) := by
  induction items with
  | nil => intro a b h; exact h
  | cons i is ih =>
    intro a b h
    cases i with
    | avih m =>
      simp only [hdrlItemsApply, hdrlStreams, HdrlItem.apply]
      exact ih _ _ h
    | raw c => exact ih _ _ h
    | list sub body => exact ih _ _ h
    | strl s =>
      simp only [hdrlItemsApply, hdrlStreams, HdrlItem.apply, applyStreams]
      apply ih
      rw [h.1]
      split
      · exact streamApply_same s a b h
      · exact h

theorem applyStreams_append (xs ys : List StreamDoc) :
    ∀ a : AVIInfo, applyStreams (xs ++ ys) a = applyStreams ys (applyStreams xs a) := by
  induction xs with
  | nil => intro a; rfl
  | cons x xs ih =>
    intro a
    show applyStreams (xs ++ ys) _ = applyStreams ys (applyStreams xs _)
    exact ih _

theorem topItemsApply_same (items : List TopItem) :
    ∀ (p : Nat) (a b : AVIInfo), SameStreams a b →
      SameStreams (topItemsApply p items a) (applyStreams (topStreams items) b) := by
  induction items with
  | nil => intro p a b h; exact h
  | cons i is ih =>
    intro p a b h
    cases i with
    | hdrl items =>
      simp only [topItemsApply, topStreams, TopItem.apply, applyStreams_append]
      exact ih _ _ _ (hdrlItemsApply_same items a b h)
    | movi payload =>
      simp only [topItemsApply, topStreams, TopItem.apply]
      exact ih _ _ _ h
    | raw c => exact ih _ _ _ h
    | list sub body => exact ih _ _ _ h

theorem aviInfoOf_same (items : List TopItem) :
    SameStreams (aviInfoOf items) (applyStreams (topStreams items) AVIInfo.zero) :=
  topItemsApply_same items 12 _ _ (sameStreams_refl _)

theorem getD_set_ne (l : List StreamInfo) (idx i : Nat) (x d : StreamInfo) (h : idx ≠ i) :
    (l.set idx x).getD i d = l.getD i d := by
  simp [List.getD_eq_getElem?_getD, List.getElem?_set_ne h]

theorem applyStrf_streams_ne (idx i : Nat) (fmt : StreamFormat) (a : AVIInfo) (h : idx ≠ i) :
    (applyStrf idx fmt a).streams.getD i StreamInfo.zero = a.streams.getD i StreamInfo.zero := by
  cases fmt
  · rfl
  · simp only [applyStrf]; exact getD_set_ne _ _ _ _ _ h
  · simp only [applyStrf]; exact getD_set_ne _ _ _ _ _ h

theorem applyStrf_streams_self (idx : Nat) (fmt : StreamFormat) (a : AVIInfo)
    (h : idx < a.streams.length) :
    ((applyStrf idx fmt a).streams.getD idx StreamInfo.zero).header
        = (a.streams.getD idx StreamInfo.zero).header ∧
      ((applyStrf idx fmt a).streams.getD idx StreamInfo.zero).type
        = (a.streams.getD idx StreamInfo.zero).type := by
  cases fmt
  · exact ⟨rfl, rfl⟩
  · simp only [applyStrf]; rw [getD_set_self _ _ _ _ h]; exact ⟨rfl, rfl⟩
  · simp only [applyStrf]; rw [getD_set_self _ _ _ _ h]; exact ⟨rfl, rfl⟩

theorem applyStrf_codec (idx : Nat) (fmt : StreamFormat) (a : AVIInfo) :
    (applyStrf idx fmt a).video_codec = a.video_codec := by
  cases fmt <;> rfl

theorem applyStrh_codec (idx : Nat) (hd : AVIStreamHeader) (a : AVIInfo) :
    (applyStrh idx hd a).video_codec
      = if hd.type = tagVids then get_codec_name (fourcc_to_uint32 hd.handler)
        else a.video_codec := by
  unfold applyStrh
  simp only
  split_ifs <;> rfl

theorem streamApply_count (s : StreamDoc) (a : AVIInfo) (h : a.stream_count < MAX_STREAMS) :
    (s.apply a).stream_count = a.stream_count + 1 := by
  have hm : MAX_STREAMS = 10 := rfl
  rw [hm] at h
  simp only [StreamDoc.apply, applyStrf_count, applyStrh_count]
  omega

theorem streamApply_streams_ne (s : StreamDoc) (a : AVIInfo) (i : Nat)
    (h : a.stream_count ≠ i) :
    (s.apply a).streams.getD i StreamInfo.zero = a.streams.getD i StreamInfo.zero := by
  simp only [StreamDoc.apply]
  rw [applyStrf_streams_ne _ _ _ _ h, applyStrh_streams, getD_set_ne _ _ _ _ _ h]

theorem streamApply_streams_self (s : StreamDoc) (a : AVIInfo)
    (h : a.stream_count < a.streams.length) :
    ((s.apply a).streams.getD a.stream_count StreamInfo.zero).header = s.header ∧
      ((s.apply a).streams.getD a.stream_count StreamInfo.zero).type = s.header.type := by
  simp only [StreamDoc.apply]
  have h1 := applyStrf_streams_self a.stream_count s.format
    (applyStrh a.stream_count s.header a) (by rw [applyStrh_length]; exact h)
  rw [h1.1, h1.2, applyStrh_streams, getD_set_self _ _ _ _ h]
  exact ⟨rfl, rfl⟩

theorem streamApply_codec (s : StreamDoc) (a : AVIInfo) :
    (s.apply a).video_codec
      = if s.header.type = tagVids then get_codec_name (fourcc_to_uint32 s.header.handler)
        else a.video_codec := by
  simp only [StreamDoc.apply, applyStrf_codec, applyStrh_codec]

theorem codecAfter_cons (s : StreamDoc) (ss : List StreamDoc) (old : List Byte) :
    codecAfter (s :: ss) old
      = codecAfter ss (if s.header.type = tagVids
          then get_codec_name (fourcc_to_uint32 s.header.handler) else old) := by
  unfold codecAfter
  simp only [lastVideo]
  cases lastVideo ss with
  | some t => rfl
  | none => by_cases h : s.header.type = tagVids <;> simp [h]

/-- The records, the count and the codec name after a sequence of stream lists that fits the
capacity. -/
theorem applyStreams_spec (ss : List StreamDoc) :
    ∀ info : AVIInfo, info.streams.length = MAX_STREAMS →
      info.stream_count + ss.length ≤ MAX_STREAMS →
      (applyStreams ss info).stream_count = info.stream_count + ss.length ∧
      (∀ i, i < info.stream_count →
        (applyStreams ss info).streams.getD i StreamInfo.zero
          = info.streams.getD i StreamInfo.zero) ∧
      (∀ j (hj : j < ss.length),
        ((applyStreams ss info).streams.getD (info.stream_count + j) StreamInfo.zero).header
            = (ss.get ⟨j, hj⟩).header ∧
          ((applyStreams ss info).streams.getD (info.stream_count + j) StreamInfo.zero).type
            = (ss.get ⟨j, hj⟩).header.type) ∧
      (applyStreams ss info).video_codec = codecAfter ss info.video_codec := by
  induction ss with
  | nil =>
    intro info _ _
    refine ⟨rfl, fun _ _ => rfl, ?_, rfl⟩
    intro j hj
    exact absurd hj (Nat.not_lt_zero _)
  | cons s ss ih =>
    intro info hlen hcap
    simp only [List.length_cons] at hcap
    have hlt : info.stream_count < MAX_STREAMS := by omega
    have hc1 := streamApply_count s info hlt
    have hl1 : (s.apply info).streams.length = MAX_STREAMS := by
      rw [streamApply_length]; exact hlen
    obtain ⟨g1, g2, g3, g4⟩ := ih (s.apply info) hl1 (by rw [hc1]; omega)
    simp only [applyStreams, hlt, if_true]
    refine ⟨?_, ?_, ?_, ?_⟩
    · rw [g1, hc1, List.length_cons]; omega
    · intro i hi
      rw [g2 i (by rw [hc1]; omega), streamApply_streams_ne s info i (by omega)]
    · intro j hj
      cases j with
      | zero =>
        have hself := streamApply_streams_self s info (by rw [hlen]; exact hlt)
        rw [Nat.add_zero, g2 _ (by rw [hc1]; omega)]
        exact hself
      | succ j =>
        have hj1 : j < ss.length := by simp only [List.length_cons] at hj; omega
        have := g3 j hj1
        rw [hc1] at this
        have he : info.stream_count + (j + 1) = info.stream_count + 1 + j := by omega
        rw [he]
        exact this
    · rw [g4, streamApply_codec, codecAfter_cons]

theorem applyStreams_full (ss : List StreamDoc) :
    ∀ info : AVIInfo, ¬ info.stream_count < MAX_STREAMS → applyStreams ss info = info := by
  induction ss with
  | nil => intro info _; rfl
  | cons s ss ih =>
    intro info h
    simp only [applyStreams, h, if_false]
    exact ih info h

theorem applyStreams_take (ss : List StreamDoc) :
    ∀ info : AVIInfo,
      applyStreams ss info = applyStreams (ss.take (MAX_STREAMS - info.stream_count)) info := by
  induction ss with
  | nil => intro info; simp [applyStreams]
  | cons s ss ih =>
    intro info
    by_cases h : info.stream_count < MAX_STREAMS
    · obtain ⟨k, hk⟩ : ∃ k, MAX_STREAMS - info.stream_count = k + 1 :=
        ⟨MAX_STREAMS - info.stream_count - 1, by omega⟩
      rw [hk, List.take_succ_cons]
      simp only [applyStreams, h, if_true]
      rw [ih (s.apply info), streamApply_count s info h]
      have : MAX_STREAMS - (info.stream_count + 1) = k := by omega
      rw [this]
    · have h0 : MAX_STREAMS - info.stream_count = 0 := by omega
      rw [h0, List.take_zero, applyStreams_full _ _ h]
      rfl

theorem minimalAvi_eq (m : AVIMainHeader) (h : AVIStreamHeader) (v : BitmapInfoHeader)
    (payload : List Byte) :
    minimalAvi m h v payload
      = aviBytes [TopItem.hdrl [HdrlItem.avih m, HdrlItem.strl ⟨h, StreamFormat.video v, []⟩],
          TopItem.movi payload] := by
  simp only [minimalAvi, aviBytes, topItemsBytes, TopItem.bytes, hdrlItemsBytes, HdrlItem.bytes,
    StreamDoc.bytes, StreamDoc.body, StreamFormat.bytes, rawChunksBytes, List.append_nil,
    List.length_append, List.append_assoc, Nat.add_assoc]

theorem minimalAvi_length (m : AVIMainHeader) (h : AVIStreamHeader) (v : BitmapInfoHeader)
    (payload : List Byte) :
    (minimalAvi m h v payload).length = 224 + payload.length + payload.length % 2 := by
  simp only [minimalAvi, List.length_append, bytes_length, le32_length, listChunk_length,
    chunk_length, encodeMainHeader_length, encodeStreamHeader_length,
    encodeBitmapInfoHeader_length]
  omega

/-- On a well-formed file with at most `MAX_STREAMS` stream lists, the records are in file
order: `stream_count` is the number of stream lists and record `j` holds the header (and the
type) of the stream list number `j`. -/
theorem insertion_order_wellFormed (items : List TopItem) (hwf : WellFormed items)
    (hk : (topStreams items).length ≤ MAX_STREAMS) (fuel : Nat)
    (hfuel : (aviBytes items).length ≤ fuel) :
    ∃ info, parse_avi_file fuel (aviBytes items) = some (0, info) ∧
      info.stream_count = (topStreams items).length ∧
      ∀ j (hj : j < (topStreams items).length),
        (info.streams.getD j StreamInfo.zero).header = ((topStreams items).get ⟨j, hj⟩).header ∧
        (info.streams.getD j StreamInfo.zero).type
          = ((topStreams items).get ⟨j, hj⟩).header.type := by
  refine ⟨_, parse_wellFormed items hwf fuel hfuel, ?_⟩
  obtain ⟨h1, h2, _⟩ := aviInfoOf_same items
  have h0 : AVIInfo.zero.stream_count = 0 := rfl
  obtain ⟨g1, _, g3, _⟩ := applyStreams_spec (topStreams items) AVIInfo.zero rfl
    (by rw [h0]; omega)
  rw [h0, Nat.zero_add] at g1
  refine ⟨by rw [h1, g1], ?_⟩
  intro j hj
  have := g3 j hj
  rw [h0, Nat.zero_add] at this
  rw [h2]
  exact this

theorem otherStreams_succ (l : List StreamInfo) (n : Nat) :
    otherStreams l (n + 1)
      = otherStreams l n +
        (if (l.getD n StreamInfo.zero).type ≠ tagVids ∧ (l.getD n StreamInfo.zero).type ≠ tagAuds
          then 1 else 0) := by
  unfold otherStreams
  rw [List.range_succ, List.filter_append, List.length_append]
  congr 1
  by_cases h : (l.getD n StreamInfo.zero).type ≠ tagVids ∧
      (l.getD n StreamInfo.zero).type ≠ tagAuds
  · have hd := decide_eq_true h
    simp only [List.filter_cons, hd, if_true, List.filter_nil, List.length_singleton, if_pos h]
  · have hd := decide_eq_false h
    simp only [List.filter_cons, hd, if_false, List.filter_nil, List.length_nil, if_neg h,
      Bool.false_eq_true]

theorem otherStreams_congr (l1 l2 : List StreamInfo) (n : Nat)
    (h : ∀ i, i < n → l1.getD i StreamInfo.zero = l2.getD i StreamInfo.zero) :
    otherStreams l1 n = otherStreams l2 n := by
  induction n with
  | zero => rfl
  | succ n ih =>
    rw [otherStreams_succ, otherStreams_succ, ih (fun i hi => h i (by omega)),
      h n (by omega)]

theorem applyStrf_video (idx : Nat) (fmt : StreamFormat) (a : AVIInfo) :
    (applyStrf idx fmt a).video_streams = a.video_streams ∧
      (applyStrf idx fmt a).audio_streams = a.audio_streams := by
  cases fmt <;> exact ⟨rfl, rfl⟩

theorem applyStrh_video (idx : Nat) (hd : AVIStreamHeader) (a : AVIInfo) :
    (applyStrh idx hd a).video_streams
        = (if hd.type = tagVids then (a.video_streams + 1) % 2 ^ 32 else a.video_streams) ∧
      (applyStrh idx hd a).audio_streams
        = (if hd.type = tagAuds then (a.audio_streams + 1) % 2 ^ 32 else a.audio_streams) := by
  unfold applyStrh
  simp only
  by_cases hv : hd.type = tagVids
  · have hne : ¬ hd.type = tagAuds := by rw [hv]; decide
    rw [if_pos hv, if_pos hv, if_neg hne]
    exact ⟨rfl, rfl⟩
  · by_cases ha : hd.type = tagAuds
    · rw [if_neg hv, if_pos ha, if_neg hv, if_pos ha]
      exact ⟨rfl, rfl⟩
    · rw [if_neg hv, if_neg ha, if_neg hv, if_neg ha]
      exact ⟨rfl, rfl⟩

theorem streamApply_video (s : StreamDoc) (a : AVIInfo) :
    (s.apply a).video_streams
        = (if s.header.type = tagVids then (a.video_streams + 1) % 2 ^ 32
            else a.video_streams) ∧
      (s.apply a).audio_streams
        = (if s.header.type = tagAuds then (a.audio_streams + 1) % 2 ^ 32
            else a.audio_streams) := by
  have h1 := applyStrf_video a.stream_count s.format (applyStrh a.stream_count s.header a)
  have h2 := applyStrh_video a.stream_count s.header a
  simp only [StreamDoc.apply]
  exact ⟨by rw [h1.1, h2.1], by rw [h1.2, h2.2]⟩

theorem count_partition (ss : List StreamDoc) :
    countType tagVids ss + countType tagAuds ss + countOther ss = ss.length := by
  induction ss with
  | nil => rfl
  | cons s ss ih =>
    simp only [countType, countOther, List.length_cons]
    by_cases hv : s.header.type = tagVids
    · have hne : ¬ s.header.type = tagAuds := by rw [hv]; decide
      have ho : ¬ (s.header.type ≠ tagVids ∧ s.header.type ≠ tagAuds) := fun h => h.1 hv
      rw [if_pos hv, if_neg hne, if_neg ho]
      omega
    · by_cases ha : s.header.type = tagAuds
      · have ho : ¬ (s.header.type ≠ tagVids ∧ s.header.type ≠ tagAuds) := fun h => h.2 ha
        rw [if_neg hv, if_pos ha, if_neg ho]
        omega
      · have ho : s.header.type ≠ tagVids ∧ s.header.type ≠ tagAuds := ⟨hv, ha⟩
        rw [if_neg hv, if_neg ha, if_pos ho]
        omega

/-- The counters after a sequence of stream lists that fits the capacity. -/
theorem applyStreams_counters (ss : List StreamDoc) :
    ∀ info : AVIInfo, info.streams.length = MAX_STREAMS →
      info.stream_count + ss.length ≤ MAX_STREAMS →
      info.video_streams + ss.length < 2 ^ 32 → info.audio_streams + ss.length < 2 ^ 32 →
      (applyStreams ss info).video_streams = info.video_streams + countType tagVids ss ∧
      (applyStreams ss info).audio_streams = info.audio_streams + countType tagAuds ss ∧
      otherStreams (applyStreams ss info).streams (info.stream_count + ss.length)
        = otherStreams info.streams info.stream_count + countOther ss := by
  induction ss with
  | nil => intro info _ _ _ _; exact ⟨rfl, rfl, rfl⟩
  | cons s ss ih =>
    intro info hlen hcap hv ha
    simp only [List.length_cons] at hcap hv ha
    have hlt : info.stream_count < MAX_STREAMS := by omega
    have hc1 := streamApply_count s info hlt
    have hl1 : (s.apply info).streams.length = MAX_STREAMS := by
      rw [streamApply_length]; exact hlen
    obtain ⟨sv, sa⟩ := streamApply_video s info
    have hself := streamApply_streams_self s info (by rw [hlen]; exact hlt)
    have hvle : (s.apply info).video_streams ≤ info.video_streams + 1 := by
      rw [sv]; split
      · exact Nat.mod_le _ _
      · omega
    have hale : (s.apply info).audio_streams ≤ info.audio_streams + 1 := by
      rw [sa]; split
      · exact Nat.mod_le _ _
      · omega
    obtain ⟨g1, g2, g3⟩ := ih (s.apply info) hl1 (by rw [hc1]; omega) (by omega) (by omega)
    simp only [applyStreams, hlt, if_true, countType, countOther, List.length_cons]
    refine ⟨?_, ?_, ?_⟩
    · rw [g1, sv]
      split
      · rw [Nat.mod_eq_of_lt (by omega)]; omega
      · omega
    · rw [g2, sa]
      split
      · rw [Nat.mod_eq_of_lt (by omega)]; omega
      · omega
    · have he : info.stream_count + (ss.length + 1) = (s.apply info).stream_count + ss.length := by
        rw [hc1]; omega
      rw [he, g3, hc1, otherStreams_succ, hself.2,
        otherStreams_congr _ info.streams info.stream_count
          (fun i hi => streamApply_streams_ne s info i (by omega))]
      omega

/-- On a well-formed file the three kinds of streams add up to `stream_count`. -/
theorem count_invariant_wellFormed (items : List TopItem) (hwf : WellFormed items)
    (fuel : Nat) (hfuel : (aviBytes items).length ≤ fuel) :
    ∃ info, parse_avi_file fuel (aviBytes items) = some (0, info) ∧
      info.video_streams + info.audio_streams + otherStreams info.streams info.stream_count
        = info.stream_count := by
  refine ⟨_, parse_wellFormed items hwf fuel hfuel, ?_⟩
  obtain ⟨h1, h2, h3, h4, _⟩ := aviInfoOf_same items
  have ht := applyStreams_take (topStreams items) AVIInfo.zero
  have h0 : MAX_STREAMS - AVIInfo.zero.stream_count = MAX_STREAMS := rfl
  rw [h0] at ht
  have hz : AVIInfo.zero.stream_count = 0 := rfl
  have hm : MAX_STREAMS = 10 := rfl
  have hlen : ((topStreams items).take MAX_STREAMS).length ≤ MAX_STREAMS := by
    rw [List.length_take]; omega
  have hzv : AVIInfo.zero.video_streams = 0 := rfl
  have hza : AVIInfo.zero.audio_streams = 0 := rfl
  have hzo : otherStreams AVIInfo.zero.streams 0 = 0 := rfl
  obtain ⟨c1, _, _, _⟩ := applyStreams_spec ((topStreams items).take MAX_STREAMS) AVIInfo.zero
    rfl (by rw [hz]; omega)
  obtain ⟨v1, a1, o1⟩ := applyStreams_counters ((topStreams items).take MAX_STREAMS)
    AVIInfo.zero rfl (by rw [hz]; omega) (by rw [hzv]; omega) (by rw [hza]; omega)
  have hp := count_partition ((topStreams items).take MAX_STREAMS)
  rw [hz] at o1 c1
  rw [h1, h2, h3, h4, ht, c1, v1, a1, o1, hzv, hza, hzo]
  omega

/-! ## The stream capacity, on every input -/

theorem strl_body_count (idx : Nat) (f : FILE) (info : AVIInfo) :
    (strl_body idx f info).2.stream_count = info.stream_count := by
  simp only [strl_body]
  split_ifs <;> rfl

theorem strl_loop_count (bound idx : Nat) :
    ∀ (fuel : Nat) (f : FILE) (info : AVIInfo) (f1 : FILE) (info1 : AVIInfo),
      strl_loop bound idx fuel f info = some (f1, info1) →
      info1.stream_count = info.stream_count := by
  intro fuel
  induction fuel with
  | zero =>
    intro f info f1 info1 h
    by_cases hlt : ftell f < bound
    · simp [strl_loop, hlt] at h
    · rw [strl_loop_done _ _ _ _ _ hlt] at h
      simp only [Option.some.injEq, Prod.mk.injEq] at h
      rw [← h.2]
  | succ fuel ih =>
    intro f info f1 info1 h
    by_cases hlt : ftell f < bound
    · rw [strl_loop_step _ _ _ _ _ hlt] at h
      rw [ih _ _ _ _ h, strl_body_count]
    · rw [strl_loop_done _ _ _ _ _ hlt] at h
      simp only [Option.some.injEq, Prod.mk.injEq] at h
      rw [← h.2]

theorem hdrl_body_count (fuel : Nat) (f : FILE) (info : AVIInfo) (f1 : FILE) (info1 : AVIInfo)
    (h : hdrl_body fuel f info = some (f1, info1)) (hc : info.stream_count ≤ MAX_STREAMS) :
    info1.stream_count ≤ MAX_STREAMS := by
  simp only [hdrl_body] at h
  split_ifs at h with h1 h2 h3
  · simp only [Option.map_some', Option.some.injEq, Prod.mk.injEq] at h
    rw [← h.2]; exact hc
  · cases hl : strl_loop (ftell f + (read_chunk_header f).1.size + 8) info.stream_count fuel
        (read_fourcc (read_chunk_header f).2 FourCC.zero).2 info with
    | none => rw [hl] at h; simp at h
    | some q =>
      rw [hl] at h
      simp only [Option.map_some', Option.some.injEq, Prod.mk.injEq] at h
      have hq := strl_loop_count _ _ _ _ _ q.1 q.2 hl
      have hlt : info.stream_count < MAX_STREAMS := by
        simp only [Bool.and_eq_true, decide_eq_true_eq] at h3
        exact h3.2
      rw [← h.2]
      simp only [hq]
      have hm : MAX_STREAMS = 10 := rfl
      rw [hm] at hlt ⊢
      omega
  · simp only [Option.map_some', Option.some.injEq, Prod.mk.injEq] at h
    rw [← h.2]; exact hc
  · simp only [Option.map_some', Option.some.injEq, Prod.mk.injEq] at h
    rw [← h.2]; exact hc

theorem hdrl_loop_count (bound fuel : Nat) :
    ∀ (n : Nat) (f : FILE) (info : AVIInfo) (f1 : FILE) (info1 : AVIInfo),
      hdrl_loop bound fuel n f info = some (f1, info1) → info.stream_count ≤ MAX_STREAMS →
      info1.stream_count ≤ MAX_STREAMS := by
  intro n
  induction n with
  | zero =>
    intro f info f1 info1 h hc
    by_cases hlt : ftell f < bound
    · simp [hdrl_loop, hlt] at h
    · rw [hdrl_loop_done _ _ _ _ _ hlt] at h
      simp only [Option.some.injEq, Prod.mk.injEq] at h
      rw [← h.2]; exact hc
  | succ n ih =>
    intro f info f1 info1 h hc
    by_cases hlt : ftell f < bound
    · rw [hdrl_loop_step _ _ _ _ _ hlt] at h
      cases hb : hdrl_body fuel f info with
      | none => rw [hb] at h; simp at h
      | some q =>
        rw [hb, Option.some_bind] at h
        exact ih _ _ _ _ h (hdrl_body_count fuel f info q.1 q.2 hb hc)
    · rw [hdrl_loop_done _ _ _ _ _ hlt] at h
      simp only [Option.some.injEq, Prod.mk.injEq] at h
      rw [← h.2]; exact hc

theorem top_body_count (fuel : Nat) (f : FILE) (info : AVIInfo) (f1 : FILE) (info1 : AVIInfo)
    (h : top_body fuel f info = some (f1, info1)) (hc : info.stream_count ≤ MAX_STREAMS) :
    info1.stream_count ≤ MAX_STREAMS := by
  simp only [top_body] at h
  split_ifs at h with h1 h2 h3
  · cases hl : hdrl_loop (ftell f + (read_chunk_header f).1.size + 8) fuel fuel
        (read_fourcc (read_chunk_header f).2 FourCC.zero).2 info with
    | none => rw [hl] at h; simp at h
    | some q =>
      rw [hl] at h
      simp only [Option.map_some', Option.some.injEq, Prod.mk.injEq] at h
      rw [← h.2]
      exact hdrl_loop_count _ _ _ _ _ q.1 q.2 hl hc
  · simp only [Option.map_some', Option.some.injEq, Prod.mk.injEq] at h
    rw [← h.2]; exact hc
  · simp only [Option.map_some', Option.some.injEq, Prod.mk.injEq] at h
    rw [← h.2]; exact hc
  · simp only [Option.map_some', Option.some.injEq, Prod.mk.injEq] at h
    rw [← h.2]; exact hc

theorem top_loop_count (bound fuel : Nat) :
    ∀ (n : Nat) (f : FILE) (info : AVIInfo) (f1 : FILE) (info1 : AVIInfo),
      top_loop bound fuel n f info = some (f1, info1) → info.stream_count ≤ MAX_STREAMS →
      info1.stream_count ≤ MAX_STREAMS := by
  intro n
  induction n with
  | zero =>
    intro f info f1 info1 h hc
    by_cases hlt : ftell f < bound
    · simp [top_loop, hlt] at h
    · rw [top_loop_done _ _ _ _ _ hlt] at h
      simp only [Option.some.injEq, Prod.mk.injEq] at h
      rw [← h.2]; exact hc
  | succ n ih =>
    intro f info f1 info1 h hc
    by_cases hlt : ftell f < bound
    · rw [top_loop_step _ _ _ _ _ hlt] at h
      cases hb : top_body fuel f info with
      | none => rw [hb] at h; simp at h
      | some q =>
        rw [hb, Option.some_bind] at h
        exact ih _ _ _ _ h (top_body_count fuel f info q.1 q.2 hb hc)
    · rw [top_loop_done _ _ _ _ _ hlt] at h
      simp only [Option.some.injEq, Prod.mk.injEq] at h
      rw [← h.2]; exact hc

theorem parse_count (fuel : Nat) (data : List Byte) (r : Int) (info : AVIInfo)
    (h : parse_avi_file fuel data = some (r, info)) : info.stream_count ≤ MAX_STREAMS := by
  rw [parse_avi_file_eq] at h
  split_ifs at h
  · cases hl : top_loop ((dec32 (data.drop 4) + 8) % 2 ^ 32) fuel fuel ((fopen data).skip 12)
        AVIInfo.zero with
    | none => rw [hl] at h; simp at h
    | some q =>
      rw [hl] at h
      simp only [Option.map_some', Option.some.injEq, Prod.mk.injEq] at h
      rw [← h.2]
      exact top_loop_count _ _ _ _ _ q.1 q.2 hl (by decide)
  · simp only [Option.some.injEq, Prod.mk.injEq] at h
    rw [← h.2]; decide
  · simp only [Option.some.injEq, Prod.mk.injEq] at h
    rw [← h.2]; decide

/-- At capacity a stream list is stepped over: the aggregate is untouched and the cursor moves
by the declared size. -/
theorem hdrl_body_full (fuel : Nat) (data : List Byte) (p : Nat) (e : Bool) (info : AVIInfo)
    (s : Nat) (r : List Byte)
    (h : data.drop p = tagLIST.bytes ++ (le32 s ++ (tagStrl.bytes ++ r))) (hs : s < 2 ^ 32)
    (hfull : ¬ info.stream_count < MAX_STREAMS) :
    hdrl_body fuel ⟨data, p, e⟩ info
      = some (⟨data, p + 8 + 4 + sub32 s 4 + s % 2, false⟩, info) := by
  have hc := read_chunk_header_at data p e tagLIST s _ h hs
  have hd : data.drop (p + 8) = tagStrl.bytes ++ r := by
    rw [← List.append_assoc] at h
    exact drop_add_of_eq_len h rfl
  have hf := read_fourcc_at data (p + 8) e FourCC.zero tagStrl _ hd
  have hne : fourcc_equals tagLIST tagAvih = false := by decide
  simp only [hdrl_body, hc, hf, hne, fourcc_equals_self, hfull, decide_False,
    Bool.and_false, if_true, if_false, Bool.false_eq_true, fseek_mk, Option.map_some',
    align2_mk]

/-! ## The primitive reads and the codec name -/

theorem render_eq (c : Nat) (hc : c < 256) :
    (if charValue c < 32 ∨ charValue c > 126 then (46 : Byte) else Fin.ofNat c)
      = renderByte c := by
  unfold renderByte charValue
  by_cases h1 : c < 128
  · by_cases h2 : 32 ≤ c ∧ c ≤ 126
    · have hn : ¬ (((c : Int) < 32) ∨ ((c : Int) > 126)) := by omega
      simp only [h1, if_true, hn, if_false, h2, and_self]
      rfl
    · have hn : ((c : Int) < 32) ∨ ((c : Int) > 126) := by omega
      simp only [h1, if_true, hn, h2, if_false]
  · have h2 : ¬ (32 ≤ c ∧ c ≤ 126) := by omega
    have hn : ((c : Int) - 256 < 32) ∨ ((c : Int) - 256 > 126) := by omega
    simp only [h1, if_false, hn, if_true, h2]

theorem get_codec_name_eq (fourcc : Nat) :
    get_codec_name fourcc
      = [renderByte (fourcc % 256), renderByte (fourcc / 256 % 256),
          renderByte (fourcc / 65536 % 256), renderByte (fourcc / 16777216 % 256), 0] := by
  simp only [get_codec_name, List.map_cons, List.map_nil, List.cons_append, List.nil_append,
    render_eq _ (Nat.mod_lt _ (by decide : 0 < 256))]

theorem renderByte_range (b : Nat) : 32 ≤ (renderByte b).val ∧ (renderByte b).val ≤ 126 := by
  unfold renderByte
  split
  · rename_i h
    have : (byte b).val = b := by rw [byte_val]; omega
    omega
  · decide

/-! ## The audio format decoder -/

theorem fopen_consistent (data : List Byte) : (fopen data).Consistent := by
  intro h; exact absurd h (Bool.false_ne_true)

theorem skip_consistent (f : FILE) (n : Nat) (h : f.Consistent) : (f.skip n).Consistent := by
  intro he
  rw [skip_eof] at he
  rw [skip_data, skip_pos]
  have hl : f.rest.length = f.data.length - f.pos := by simp [FILE.rest]
  simp only [Bool.or_eq_true, decide_eq_true_eq] at he
  rcases he with he | he
  · have := h he
    omega
  · rw [Nat.min_eq_right (by omega)]
    omega

theorem fseek_consistent (f : FILE) (n : Nat) : (fseek f n).Consistent := by
  intro h; exact absurd h (by simp [fseek])

theorem truncated_spins (fuel : Nat) :
    ∀ n : Nat, top_loop 108 fuel n ⟨truncatedFile, 12, false⟩ AVIInfo.zero = none := by
  intro n
  induction n with
  | zero => rfl
  | succ n ih =>
    have hlt : ftell (FILE.mk truncatedFile 12 false) < 108 := by decide
    have hb : top_body fuel ⟨truncatedFile, 12, false⟩ AVIInfo.zero
        = some (⟨truncatedFile, 12, false⟩, AVIInfo.zero) := by rfl
    rw [top_loop_step _ _ _ _ _ hlt, hb, Option.some_bind]
    exact ih

/-- The step of the stream-list loop on a `strf` chunk of declared size `s` while the type of
the current stream header is neither vids nor auds: the aggregate is unchanged and the cursor
moves past the chunk header by the value of the 32-bit expression `s - 8`, plus one byte when
`s` is odd. -/
theorem strl_body_strf_unknown (idx : Nat) (data : List Byte) (p : Nat) (e : Bool)
    (info : AVIInfo) (s : Nat) (r : List Byte)
    (h : data.drop p = tagStrf.bytes ++ (le32 s ++ r)) (hs : s < 2 ^ 32)
    (hv : (info.streams.getD idx StreamInfo.zero).header.type ≠ tagVids)
    (ha : (info.streams.getD idx StreamInfo.zero).header.type ≠ tagAuds) :
    strl_body idx ⟨data, p, e⟩ info = (⟨data, p + 8 + sub32 s 8 + s % 2, false⟩, info) ∧
      (8 ≤ s → sub32 s 8 = s - 8) ∧ (s < 8 → sub32 s 8 = s + 2 ^ 32 - 8) := by
  have hc := read_chunk_header_at data p e tagStrf s _ h hs
  have hne : fourcc_equals tagStrf tagStrh = false := by decide
  refine ⟨?_, ?_, ?_⟩
  · simp only [strl_body, hc, hne, fourcc_equals_self, fourcc_equals_of_ne hv,
      fourcc_equals_of_ne ha, if_true, if_false, Bool.false_eq_true, fseek_mk, align2_mk]
  · intro h8
    have := sub32_add (s - 8) 8 (by decide) (by omega)
    rwa [Nat.add_sub_cancel' h8] at this
  · intro h8
    unfold sub32
    rw [Nat.mod_eq_of_lt (by omega)]
    omega

/-! ## The claims -/

set_option maxRecDepth 1000000

/-- C3: an input of at least four bytes whose first four bytes are not exactly R, I, F, F makes
`parse_avi_file` return -1 whatever the fuel (no loop is entered), and the aggregate is the
all-zero one. -/
theorem C3_not_riff (fuel : Nat) (data : List Byte) (_hlen : 4 ≤ data.length)
    (h : data.take 4 ≠ tagRIFF.bytes) :
    parse_avi_file fuel data = some (-1, AVIInfo.zero) := by
  rw [parse_avi_file_eq, if_neg h]

/-- Witness of C3: the lower-case tag riff is rejected. -/
theorem C3_not_riff_witness :
    parse_avi_file 0 [114, 105, 102, 102, 4, 0, 0, 0, 65, 86, 73, 32]
      = some (-1, AVIInfo.zero) :=
  C3_not_riff 0 [114, 105, 102, 102, 4, 0, 0, 0, 65, 86, 73, 32] (by decide) (by decide)

/-- C4: an input of at least twelve bytes that starts with RIFF and whose bytes 8..11 are not
exactly A, V, I, blank makes `parse_avi_file` return -1, whatever the declared size, the bytes
that follow and the fuel. -/
theorem C4_not_avi (fuel : Nat) (data : List Byte) (_hlen : 12 ≤ data.length)
    (hriff : data.take 4 = tagRIFF.bytes) (h : (data.drop 8).take 4 ≠ tagAVI.bytes) :
    parse_avi_file fuel data = some (-1, AVIInfo.zero) := by
  rw [parse_avi_file_eq, if_pos hriff, if_neg h]

/-- Witness of C4: a RIFF file of form type WAVE. -/
theorem C4_not_avi_witness :
    parse_avi_file 0 [82, 73, 70, 70, 4, 0, 0, 0, 87, 65, 86, 69] = some (-1, AVIInfo.zero) :=
  C4_not_avi 0 [82, 73, 70, 70, 4, 0, 0, 0, 87, 65, 86, 69] (by decide) (by decide) (by decide)

/-- C5: whenever `parse_avi_file` returns, it returns 0 if the input starts with RIFF, a size
and the form type AVI, and -1 otherwise; so nothing after the envelope can make it fail, and it
fails exactly when the RIFF tag or the form type does not match. -/
theorem C5_two_tier (fuel : Nat) (data : List Byte) (r : Int) (info : AVIInfo)
    (h : parse_avi_file fuel data = some (r, info)) :
    (Envelope data → r = 0) ∧ (r = -1 ↔ ¬ Envelope data) := by
  rw [parse_avi_file_eq] at h
  unfold Envelope
  by_cases h1 : data.take 4 = tagRIFF.bytes
  · by_cases h2 : (data.drop 8).take 4 = tagAVI.bytes
    · rw [if_pos h1, if_pos h2] at h
      cases hl : top_loop ((dec32 (data.drop 4) + 8) % 2 ^ 32) fuel fuel ((fopen data).skip 12)
        AVIInfo.zero with
      | none => rw [hl] at h; simp at h
      | some p =>
        rw [hl] at h
        simp only [Option.map_some', Option.some.injEq, Prod.mk.injEq] at h
        have hr : r = 0 := h.1.symm
        subst hr
        simp [h1, h2]
    · rw [if_pos h1, if_neg h2] at h
      simp only [Option.some.injEq, Prod.mk.injEq] at h
      have hr : r = -1 := h.1.symm
      subst hr
      simp [h1, h2]
  · rw [if_neg h1] at h
    simp only [Option.some.injEq, Prod.mk.injEq] at h
    have hr : r = -1 := h.1.symm
    subst hr
    simp [h1]

/-- Witness of C5: an envelope followed by a chunk of unknown tag and odd size. -/
theorem C5_two_tier_witness :
    (Envelope [82, 73, 70, 70, 14, 0, 0, 0, 65, 86, 73, 32, 74, 85, 78, 75, 1, 0, 0, 0, 7, 0]
        → (0 : Int) = 0) ∧
      ((0 : Int) = -1 ↔
        ¬ Envelope [82, 73, 70, 70, 14, 0, 0, 0, 65, 86, 73, 32, 74, 85, 78, 75, 1, 0, 0, 0, 7, 0]) :=
  C5_two_tier 1 [82, 73, 70, 70, 14, 0, 0, 0, 65, 86, 73, 32, 74, 85, 78, 75, 1, 0, 0, 0, 7, 0]
    0 AVIInfo.zero (by decide)

/-- C6: when the top-level loop reads, at offset `p`, the header of a LIST chunk of declared size
`s ≥ 4` and sub-type movi (in a file of at most `2 ^ 32` bytes), the iteration records
`movi_offset = p + 8` and `movi_size = s - 4`, changes nothing else in the aggregate, and
leaves the cursor at the end of the chunk. -/
theorem C6_movi_recorded (fuel : Nat) (data : List Byte) (p : Nat) (e : Bool) (info : AVIInfo)
    (s : Nat) (r : List Byte)
    (h : data.drop p = tagLIST.bytes ++ (le32 s ++ (tagMovi.bytes ++ r)))
    (hs4 : 4 ≤ s) (hs : s < 2 ^ 32) (hdata : data.length ≤ 2 ^ 32) :
    top_body fuel ⟨data, p, e⟩ info
      = some (⟨data, p + 8 + s + s % 2, false⟩,
          { info with movi_offset := p + 8, movi_size := s - 4 }) := by
  have hle : p + 12 ≤ data.length := by
    have h1 : (data.drop p).length = 4 + (4 + (4 + r.length)) := by
      rw [h]; simp only [List.length_append, bytes_length, le32_length]
    rw [List.length_drop] at h1
    omega
  have hc := read_chunk_header_at data p e tagLIST s _ h hs
  have hd : data.drop (p + 8) = tagMovi.bytes ++ r := by
    rw [← List.append_assoc] at h
    exact drop_add_of_eq_len h rfl
  have hf := read_fourcc_at data (p + 8) e FourCC.zero tagMovi _ hd
  have hne : fourcc_equals tagMovi tagHdrl = false := by decide
  have hoff : (p + 8 + 4 - 4) % 2 ^ 32 = p + 8 := by
    rw [Nat.add_sub_cancel, Nat.mod_eq_of_lt (by omega)]
  have hsub : sub32 s 4 = s - 4 := by
    have := sub32_add (s - 4) 4 (by decide) (by omega)
    rwa [Nat.add_sub_cancel' hs4] at this
  simp only [top_body, hc, hf, hne, fourcc_equals_self, fseek_mk, ftell, hoff, hsub,
    Option.map_some', align2_mk, Bool.false_eq_true, if_false, if_true]
  have hpos : p + 8 + 4 + (s - 4) + s % 2 = p + 8 + s + s % 2 := by omega
  rw [hpos]

/-- Witness of C6: a movi list of declared size 9 (odd) at offset 0. -/
theorem C6_movi_recorded_witness :
    top_body 0 ⟨[76, 73, 83, 84, 9, 0, 0, 0, 109, 111, 118, 105, 1, 2, 3, 4, 5, 0], 0, false⟩
        AVIInfo.zero
      = some (⟨[76, 73, 83, 84, 9, 0, 0, 0, 109, 111, 118, 105, 1, 2, 3, 4, 5, 0],
            0 + 8 + 9 + 9 % 2, false⟩,
          { AVIInfo.zero with movi_offset := 0 + 8, movi_size := 9 - 4 }) :=
  C6_movi_recorded 0 [76, 73, 83, 84, 9, 0, 0, 0, 109, 111, 118, 105, 1, 2, 3, 4, 5, 0] 0 false
    AVIInfo.zero 9 [1, 2, 3, 4, 5, 0] (by decide) (by decide) (by decide) (by decide)

/-- C9: on every input, `stream_count ≤ MAX_STREAMS` holds in the result of `parse_avi_file`
and is kept by every iteration of each of the three loops; and when `MAX_STREAMS` streams are
recorded, an iteration of the header-list loop that meets a further LIST chunk of sub-type strl
leaves the whole aggregate unchanged and moves the cursor to the end of that list (offset
`p + 8 + s + s mod 2` for a declared size `s ≥ 4`). -/
theorem C9_stream_capacity :
    (∀ (fuel : Nat) (data : List Byte) (r : Int) (info : AVIInfo),
      parse_avi_file fuel data = some (r, info) → info.stream_count ≤ MAX_STREAMS) ∧
    (∀ (idx : Nat) (f : FILE) (info : AVIInfo),
      (strl_body idx f info).2.stream_count = info.stream_count) ∧
    (∀ (fuel : Nat) (f : FILE) (info : AVIInfo) (f1 : FILE) (info1 : AVIInfo),
      hdrl_body fuel f info = some (f1, info1) → info.stream_count ≤ MAX_STREAMS →
      info1.stream_count ≤ MAX_STREAMS) ∧
    (∀ (fuel : Nat) (f : FILE) (info : AVIInfo) (f1 : FILE) (info1 : AVIInfo),
      top_body fuel f info = some (f1, info1) → info.stream_count ≤ MAX_STREAMS →
      info1.stream_count ≤ MAX_STREAMS) ∧
    (∀ (fuel : Nat) (data : List Byte) (p : Nat) (e : Bool) (info : AVIInfo) (s : Nat)
        (r : List Byte),
      data.drop p = tagLIST.bytes ++ (le32 s ++ (tagStrl.bytes ++ r)) → 4 ≤ s → s < 2 ^ 32 →
      info.stream_count = MAX_STREAMS →
      hdrl_body fuel ⟨data, p, e⟩ info = some (⟨data, p + 8 + s + s % 2, false⟩, info)) := by
  refine ⟨parse_count, strl_body_count, hdrl_body_count, top_body_count, ?_⟩
  intro fuel data p e info s r h hs4 hs hfull
  rw [hdrl_body_full fuel data p e info s r h hs (by omega)]
  have hsub : sub32 s 4 = s - 4 := by
    have := sub32_add (s - 4) 4 (by decide) (by omega)
    rwa [Nat.add_sub_cancel' hs4] at this
  have hpos : p + 8 + 4 + sub32 s 4 + s % 2 = p + 8 + s + s % 2 := by rw [hsub]; omega
  rw [hpos]

/-- Witness of C9: with ten streams recorded, a stream list of declared size 4 is stepped
over. -/
theorem C9_stream_capacity_witness :
    hdrl_body 0 ⟨[76, 73, 83, 84, 4, 0, 0, 0, 115, 116, 114, 108], 0, false⟩
        { AVIInfo.zero with stream_count := 10 }
      = some (⟨[76, 73, 83, 84, 4, 0, 0, 0, 115, 116, 114, 108], 0 + 8 + 4 + 4 % 2, false⟩,
          { AVIInfo.zero with stream_count := 10 }) :=
  C9_stream_capacity.2.2.2.2 0 [76, 73, 83, 84, 4, 0, 0, 0, 115, 116, 114, 108] 0 false
    { AVIInfo.zero with stream_count := 10 } 4 [] (by decide) (by decide) (by decide) (by rfl)

/-- C1: for every main header `m`, stream header `h` of type vids, bitmap header `v` (fields
within their 32 or 16 bits) and payload of any length, odd or even, such that the file is
shorter than `2 ^ 32` bytes, the file RIFF, AVI, LIST hdrl (avih, LIST strl (strh, strf)),
LIST movi (payload, pad byte) is parsed with result 0 and every field written is read back:
`main_header = m`, one stream with header `h` and video format `v`, one video stream, no audio
stream, `movi_size` the payload length (and `movi_offset = 220`). -/
theorem C1_round_trip (m : AVIMainHeader) (h : AVIStreamHeader) (v : BitmapInfoHeader)
    (payload : List Byte) (hm : m.InRange) (hh : h.InRange) (ht : h.type = tagVids)
    (hv : v.InRange) (hlen : 224 + payload.length + payload.length % 2 < 2 ^ 32)
    (fuel : Nat) (hfuel : 224 + payload.length + payload.length % 2 ≤ fuel) :
    ∃ info, parse_avi_file fuel (minimalAvi m h v payload) = some (0, info) ∧
      info.main_header = m ∧ info.stream_count = 1 ∧
      (info.streams.getD 0 StreamInfo.zero).header = h ∧
      (info.streams.getD 0 StreamInfo.zero).type = h.type ∧
      (info.streams.getD 0 StreamInfo.zero).format = StreamFormat.video v ∧
      info.video_streams = 1 ∧ info.audio_streams = 0 ∧
      info.movi_offset = 220 ∧ info.movi_size = payload.length := by
  have hl := minimalAvi_length m h v payload
  rw [minimalAvi_eq] at hl ⊢
  have hwf : WellFormed [TopItem.hdrl [HdrlItem.avih m,
      HdrlItem.strl ⟨h, StreamFormat.video v, []⟩], TopItem.movi payload] := by
    refine ⟨?_, by omega⟩
    intro i hi
    simp only [List.mem_cons, List.mem_singleton, List.not_mem_nil, or_false] at hi
    rcases hi with rfl | rfl
    · intro j hj
      simp only [List.mem_cons, List.mem_singleton, List.not_mem_nil, or_false] at hj
      rcases hj with rfl | rfl
      · exact hm
      · exact ⟨hh, ⟨ht, hv⟩, fun c hc => absurd hc (List.not_mem_nil c)⟩
    · trivial
  refine ⟨_, parse_wellFormed _ hwf fuel (by omega), ?_⟩
  simp [aviInfoOf, topItemsApply, TopItem.apply, hdrlItemsApply, HdrlItem.apply,
    StreamDoc.apply, applyStrh, applyStrf, ht, AVIInfo.zero, MAX_STREAMS, TopItem.bytes,
    listChunk_length, hdrlItemsBytes, HdrlItem.bytes, StreamDoc.bytes, StreamDoc.body,
    StreamFormat.bytes, rawChunksBytes, chunk_length, encodeMainHeader_length,
    encodeStreamHeader_length, encodeBitmapInfoHeader_length, StreamInfo.zero]

/-- Witness of C1: a payload of three bytes (odd, so a pad byte follows). -/
theorem C1_round_trip_witness :
    ∃ info, parse_avi_file 228
        (minimalAvi sampleMainHeader (videoHeader ⟨77, 74, 80, 71⟩) sampleBitmap [1, 2, 3])
          = some (0, info) ∧
      info.main_header = sampleMainHeader ∧ info.stream_count = 1 ∧
      (info.streams.getD 0 StreamInfo.zero).header = videoHeader ⟨77, 74, 80, 71⟩ ∧
      (info.streams.getD 0 StreamInfo.zero).type = (videoHeader ⟨77, 74, 80, 71⟩).type ∧
      (info.streams.getD 0 StreamInfo.zero).format = StreamFormat.video sampleBitmap ∧
      info.video_streams = 1 ∧ info.audio_streams = 0 ∧
      info.movi_offset = 220 ∧ info.movi_size = [(1 : Byte), 2, 3].length :=
  C1_round_trip sampleMainHeader (videoHeader ⟨77, 74, 80, 71⟩) sampleBitmap [1, 2, 3]
    (by decide) (by decide) rfl (by decide) (by decide) 228 (by decide)

/-- C2 (evaluation at a failing input): in `paletteFile` the video `strf` chunk starts at
offset 164 with declared size 48, so the next chunk header is at offset 220; after the `strh`
and the `strf` iteration of the stream-list loop the cursor is at offset 212, inside the body
of the chunk. The bytes read there as a header send the cursor far away, and the parse returns
with one stream although the header list holds two stream lists. -/
theorem C2_declared_size_not_honoured :
    (paletteFile.drop 164).take 8 = tagStrf.bytes ++ le32 48 ∧
    (strl_body 0 (strl_body 0 ⟨paletteFile, 100, false⟩ AVIInfo.zero).1
        (strl_body 0 ⟨paletteFile, 100, false⟩ AVIInfo.zero).2).1.pos = 212 ∧
    164 + 8 + 48 + 48 % 2 = 220 ∧
    (parse_avi_file 10 paletteFile).map
        (fun r => (r.1, r.2.stream_count, r.2.video_streams, r.2.audio_streams))
      = some (0, 1, 1, 0) := by
  decide

/-- C7 (counterexample): in a file with two video streams, the first with handler AAAA and the
second with handler BBBB, the codec name after the parse is BBBB, not AAAA. -/
theorem C7_first_codec_counterexample :
    ∃ info, parse_avi_file 400 (aviBytes twoVideoItems) = some (0, info) ∧
      info.video_codec = [66, 66, 66, 66, 0] ∧
      get_codec_name (fourcc_to_uint32 ⟨65, 65, 65, 65⟩) = [65, 65, 65, 65, 0] :=
  ⟨aviInfoOf twoVideoItems, parse_wellFormed twoVideoItems (by decide) 400 (by decide),
    by decide, by decide⟩

/-- C7 (amended): on a well-formed file, the codec name after the parse is the printable
rendering of the handler tag of the last video stream among the first `MAX_STREAMS` stream
lists in file order: every video stream header that is recorded overwrites it. -/
theorem C7_last_video_codec (items : List TopItem) (hwf : WellFormed items) (t : StreamDoc)
    (ht : lastVideo ((topStreams items).take MAX_STREAMS) = some t) (fuel : Nat)
    (hfuel : (aviBytes items).length ≤ fuel) :
    ∃ info, parse_avi_file fuel (aviBytes items) = some (0, info) ∧
      info.video_codec = get_codec_name (fourcc_to_uint32 t.header.handler) := by
  refine ⟨_, parse_wellFormed items hwf fuel hfuel, ?_⟩
  have h1 := (aviInfoOf_same items).2.2.2.2
  have h2 := applyStreams_take (topStreams items) AVIInfo.zero
  have h3 := applyStreams_spec ((topStreams items).take MAX_STREAMS) AVIInfo.zero rfl
    (by
      have : AVIInfo.zero.stream_count = 0 := rfl
      rw [this, List.length_take]
      omega)
  have h0 : MAX_STREAMS - AVIInfo.zero.stream_count = MAX_STREAMS := rfl
  rw [h0] at h2
  rw [h1, h2, h3.2.2.2]
  unfold codecAfter
  rw [ht]

/-- Witness of C7 (amended): the file with the handlers AAAA and BBBB. -/
theorem C7_last_video_codec_witness :
    ∃ info, parse_avi_file 400 (aviBytes twoVideoItems) = some (0, info) ∧
      info.video_codec = get_codec_name (fourcc_to_uint32
        (StreamDoc.mk (videoHeader ⟨66, 66, 66, 66⟩) (StreamFormat.video sampleBitmap)
          []).header.handler) :=
  C7_last_video_codec twoVideoItems (by decide)
    ⟨videoHeader ⟨66, 66, 66, 66⟩, StreamFormat.video sampleBitmap, []⟩ (by rfl) 400
    (by decide)

/-- C8 (evaluation at a failing input): `codecDataFile` holds one video stream whose format
chunk carries eight bytes of codec data after the bitmap header. The walker reads the codec
data as the header of a second `strh` chunk and decodes a stream header from the bytes that
follow the stream list. The parse returns 0 with one video stream, no audio stream and one
record of another type among the first `stream_count` records, but `stream_count = 1`. -/
theorem C8_count_invariant_broken :
    (parse_avi_file 10 codecDataFile).map
        (fun r => (r.1, r.2.video_streams, r.2.audio_streams,
          otherStreams r.2.streams r.2.stream_count, r.2.stream_count))
      = some (0, 1, 0, 1, 1) := by
  decide

/-- C10 (evaluation at a failing input): the header list of `pcmFirstFile` holds two stream
lists, each with one `strh` chunk; the format chunk of the first is the 16-byte PCM format.
The parse returns 0 with `stream_count = 1`, and the second record is still all zero. -/
theorem C10_second_stream_lost :
    (parse_avi_file 10 pcmFirstFile).map
        (fun r => (r.1, r.2.stream_count, r.2.audio_streams, r.2.video_streams,
          decide (r.2.streams.getD 1 StreamInfo.zero = StreamInfo.zero)))
      = some (0, 1, 1, 0, true) := by
  decide

/-- C19: with at least eight bytes `b0 .. b7` at the cursor, `read_chunk_header` returns the tag
`(b0, b1, b2, b3)` and the size `b4 + 256 b5 + 65536 b6 + 16777216 b7`, a value below `2 ^ 32`,
and advances the position by 8; with four bytes at the cursor `read_uint32` returns their
little-endian value and advances by 4; with two bytes `read_uint16` returns `b0 + 256 b1` and
advances by 2. The end-of-file indicator is not touched. -/
theorem C19_chunk_header_decoding :
    (∀ (data : List Byte) (p : Nat) (e : Bool) (b0 b1 b2 b3 b4 b5 b6 b7 : Byte) (r : List Byte),
      data.drop p = b0 :: b1 :: b2 :: b3 :: b4 :: b5 :: b6 :: b7 :: r →
      read_chunk_header ⟨data, p, e⟩
          = (⟨⟨b0, b1, b2, b3⟩,
              b4.val + 256 * b5.val + 65536 * b6.val + 16777216 * b7.val⟩, ⟨data, p + 8, e⟩) ∧
        b4.val + 256 * b5.val + 65536 * b6.val + 16777216 * b7.val < 2 ^ 32) ∧
    (∀ (data : List Byte) (p : Nat) (e : Bool) (b0 b1 b2 b3 : Byte) (r : List Byte),
      data.drop p = b0 :: b1 :: b2 :: b3 :: r →
      read_uint32 ⟨data, p, e⟩
        = (b0.val + 256 * b1.val + 65536 * b2.val + 16777216 * b3.val, ⟨data, p + 4, e⟩)) ∧
    (∀ (data : List Byte) (p : Nat) (e : Bool) (b0 b1 : Byte) (r : List Byte),
      data.drop p = b0 :: b1 :: r →
      read_uint16 ⟨data, p, e⟩ = (b0.val + 256 * b1.val, ⟨data, p + 2, e⟩)) := by
  refine ⟨?_, ?_, ?_⟩
  · intro data p e b0 b1 b2 b3 b4 b5 b6 b7 r h
    refine ⟨?_, ?_⟩
    · rw [read_chunk_header_eq, rest_mk, h, skip_mk _ _ _ _ (by rw [h]; simp)]
      rfl
    · have h4 := b4.isLt
      have h5 := b5.isLt
      have h6 := b6.isLt
      have h7 := b7.isLt
      omega
  · intro data p e b0 b1 b2 b3 r h
    rw [read_uint32_eq, rest_mk, h, skip_mk _ _ _ _ (by rw [h]; simp)]
    rfl
  · intro data p e b0 b1 r h
    rw [read_uint16_eq, rest_mk, h, skip_mk _ _ _ _ (by rw [h]; simp)]
    rfl

/-- Witness of C19: the header of a chunk with tag JUNK and size 0x01020304 at offset 2. -/
theorem C19_chunk_header_decoding_witness :
    read_chunk_header ⟨[9, 9, 74, 85, 78, 75, 4, 3, 2, 1, 7], 2, false⟩
        = (⟨⟨74, 85, 78, 75⟩,
            (4 : Byte).val + 256 * (3 : Byte).val + 65536 * (2 : Byte).val
              + 16777216 * (1 : Byte).val⟩,
          ⟨[9, 9, 74, 85, 78, 75, 4, 3, 2, 1, 7], 2 + 8, false⟩) ∧
      (4 : Byte).val + 256 * (3 : Byte).val + 65536 * (2 : Byte).val
        + 16777216 * (1 : Byte).val < 2 ^ 32 :=
  C19_chunk_header_decoding.1 [9, 9, 74, 85, 78, 75, 4, 3, 2, 1, 7] 2 false 74 85 78 75 4 3 2 1
    [7] (by decide)

/-- C15: for every tag, the five characters `get_codec_name` stores are, for `i = 0 .. 3`, byte
`i` of the tag (in memory order on a little-endian host) when it lies in [32, 126] and a dot
(46) otherwise, bytes from 128 on included, followed by NUL; each of the four characters is
printable, and rendering the rendered tag again gives the same five characters. -/
theorem C15_codec_name (fourcc : Nat) :
    get_codec_name fourcc
        = [renderByte (fourcc % 256), renderByte (fourcc / 256 % 256),
            renderByte (fourcc / 65536 % 256), renderByte (fourcc / 16777216 % 256), 0] ∧
      (∀ i, i < 4 → 32 ≤ ((get_codec_name fourcc).getD i 0).val ∧
        ((get_codec_name fourcc).getD i 0).val ≤ 126) ∧
      (∀ b, 128 ≤ b → renderByte b = 46) ∧
      get_codec_name (fourcc_to_uint32
          ⟨(get_codec_name fourcc).getD 0 0, (get_codec_name fourcc).getD 1 0,
            (get_codec_name fourcc).getD 2 0, (get_codec_name fourcc).getD 3 0⟩)
        = get_codec_name fourcc := by
  have h0 := renderByte_range (fourcc % 256)
  have h1 := renderByte_range (fourcc / 256 % 256)
  have h2 := renderByte_range (fourcc / 65536 % 256)
  have h3 := renderByte_range (fourcc / 16777216 % 256)
  refine ⟨get_codec_name_eq fourcc, ?_, ?_, ?_⟩
  · intro i hi
    rw [get_codec_name_eq]
    match i, hi with
    | 0, _ => exact h0
    | 1, _ => exact h1
    | 2, _ => exact h2
    | 3, _ => exact h3
  · intro b hb
    unfold renderByte
    rw [if_neg (by omega)]
  · rw [get_codec_name_eq fourcc]
    simp only [List.getD_cons_zero, List.getD_cons_succ]
    rw [get_codec_name_eq]
    simp only [fourcc_to_uint32]
    generalize renderByte (fourcc % 256) = r0 at h0 ⊢
    generalize renderByte (fourcc / 256 % 256) = r1 at h1 ⊢
    generalize renderByte (fourcc / 65536 % 256) = r2 at h2 ⊢
    generalize renderByte (fourcc / 16777216 % 256) = r3 at h3 ⊢
    have e0 : (r0.val + 256 * r1.val + 65536 * r2.val + 16777216 * r3.val) % 256 = r0.val := by
      omega
    have e1 : (r0.val + 256 * r1.val + 65536 * r2.val + 16777216 * r3.val) / 256 % 256
        = r1.val := by omega
    have e2 : (r0.val + 256 * r1.val + 65536 * r2.val + 16777216 * r3.val) / 65536 % 256
        = r2.val := by omega
    have e3 : (r0.val + 256 * r1.val + 65536 * r2.val + 16777216 * r3.val) / 16777216 % 256
        = r3.val := by omega
    have p0 : renderByte r0.val = r0 := by
      unfold renderByte; rw [if_pos h0]; apply Fin.ext; rw [byte_val]; omega
    have p1 : renderByte r1.val = r1 := by
      unfold renderByte; rw [if_pos h1]; apply Fin.ext; rw [byte_val]; omega
    have p2 : renderByte r2.val = r2 := by
      unfold renderByte; rw [if_pos h2]; apply Fin.ext; rw [byte_val]; omega
    have p3 : renderByte r3.val = r3 := by
      unfold renderByte; rw [if_pos h3]; apply Fin.ext; rw [byte_val]; omega
    rw [e0, e1, e2, e3, p0, p1, p2, p3]

/-- C20: the bound of the top-level loop is `(declared RIFF size + 8) mod 2 ^ 32` and the loop
starts at offset 12; so on every input that passes the envelope check and declares a RIFF size
of at most 4 or of at least `2 ^ 32 - 8`, the loop body never runs (the result does not depend
on the fuel) and `parse_avi_file` returns 0 with the all-zero aggregate, whatever follows the
form type. -/
theorem C20_bound_wraps (fuel : Nat) (data : List Byte) (henv : Envelope data)
    (hsize : dec32 (data.drop 4) ≤ 4 ∨ 2 ^ 32 - 8 ≤ dec32 (data.drop 4)) :
    parse_avi_file fuel data
        = (top_loop ((dec32 (data.drop 4) + 8) % 2 ^ 32) fuel fuel ⟨data, 12, false⟩
            AVIInfo.zero).map (fun r => (0, r.2)) ∧
      parse_avi_file fuel data = some (0, AVIInfo.zero) := by
  have hlen : 12 ≤ data.length := by
    have h2 := congrArg List.length henv.2
    simp only [List.length_take, List.length_drop, bytes_length] at h2
    omega
  have h12 : (fopen data).skip 12 = ⟨data, 0 + 12, false⟩ :=
    skip_mk _ _ _ _ (by simp only [List.drop_zero]; exact hlen)
  have hlt : dec32 (data.drop 4) < 2 ^ 32 := by
    unfold dec32
    have h0 := ((data.drop 4).getD 0 0).isLt
    have h1 := ((data.drop 4).getD 1 0).isLt
    have h2 := ((data.drop 4).getD 2 0).isLt
    have h3 := ((data.drop 4).getD 3 0).isLt
    omega
  have hb : ¬ ftell (FILE.mk data 12 false) < (dec32 (data.drop 4) + 8) % 2 ^ 32 := by
    simp only [ftell]
    omega
  have heq := parse_avi_file_eq fuel data
  rw [if_pos henv.1, if_pos henv.2, h12, Nat.zero_add] at heq
  refine ⟨heq, ?_⟩
  rw [heq, top_loop_done _ _ _ _ _ hb]
  rfl

/-- Witness of C20: a declared RIFF size of 0xFFFFFFF8 followed by a movi list. -/
theorem C20_bound_wraps_witness :
    parse_avi_file 5 [82, 73, 70, 70, 248, 255, 255, 255, 65, 86, 73, 32,
        76, 73, 83, 84, 4, 0, 0, 0, 109, 111, 118, 105]
      = (top_loop ((dec32 (List.drop 4 [82, 73, 70, 70, 248, 255, 255, 255, 65, 86, 73, 32,
          76, 73, 83, 84, 4, 0, 0, 0, 109, 111, 118, 105]) + 8) % 2 ^ 32) 5 5
          ⟨[82, 73, 70, 70, 248, 255, 255, 255, 65, 86, 73, 32,
            76, 73, 83, 84, 4, 0, 0, 0, 109, 111, 118, 105], 12, false⟩
          AVIInfo.zero).map (fun r => (0, r.2)) ∧
    parse_avi_file 5 [82, 73, 70, 70, 248, 255, 255, 255, 65, 86, 73, 32,
        76, 73, 83, 84, 4, 0, 0, 0, 109, 111, 118, 105] = some (0, AVIInfo.zero) :=
  C20_bound_wraps 5 [82, 73, 70, 70, 248, 255, 255, 255, 65, 86, 73, 32,
    76, 73, 83, 84, 4, 0, 0, 0, 109, 111, 118, 105] (by decide) (by decide)

/-- C11 (evaluation at a failing input): in `pcmFirstFile` the audio `strf` chunk starts at
offset 164 with declared size 16, so it ends at offset 188, right after the base record. The
trailing size field is read all the same: it is 18764, the bytes L and I of the LIST tag that
follows, and after the iteration the cursor is at offset 190. -/
theorem C11_extra_size_read_past_end :
    (pcmFirstFile.drop 164).take 8 = tagStrf.bytes ++ le32 16 ∧
    164 + 8 + 16 = 188 ∧
    (pcmFirstFile.drop 188).take 2 = [76, 73] ∧
    (strl_body 0 (strl_body 0 ⟨pcmFirstFile, 100, false⟩ AVIInfo.zero).1
        (strl_body 0 ⟨pcmFirstFile, 100, false⟩ AVIInfo.zero).2).1.pos = 190 ∧
    (parse_avi_file 10 pcmFirstFile).map (fun r => (r.2.streams.getD 0 StreamInfo.zero).format)
      = some (StreamFormat.audio ⟨1, 2, 44100, 176400, 4, 16, 18764⟩) := by
  decide

/-- C13 (evaluation at a failing input): `truncatedFile` passes the envelope check, declares a
RIFF size of 100 and ends after the form type. Every read of the top-level loop is short, the
header read is all zero, the cursor stays at offset 12 below the bound 108, and the loop is
still running after any number of iterations: `parse_avi_file` returns for no fuel. -/
theorem C13_truncated_file_spins (fuel : Nat) :
    Envelope truncatedFile ∧ parse_avi_file fuel truncatedFile = none := by
  refine ⟨by decide, ?_⟩
  have h12 : (fopen truncatedFile).skip 12 = ⟨truncatedFile, 12, false⟩ := by decide
  have hb : (dec32 (truncatedFile.drop 4) + 8) % 2 ^ 32 = 108 := by decide
  rw [parse_avi_file_eq, if_pos (by decide), if_pos (by decide), h12, hb,
    truncated_spins fuel fuel]
  rfl

/-- C17 (evaluation at a failing input): `shortStrf` is a `strf` chunk of declared size 4 at
offset 0, met while the record of the stream has the all-zero type. The chunk header ends at
offset 8 and the chunk at offset 12; `8 + (4 - 8)` is offset 4. The 32-bit subtraction `4 - 8`
wraps to 4294967292 and the cursor ends at offset 4294967300, with the aggregate unchanged.
The sibling branch, on the same chunk with the tag JUNK, ends at offset 12. -/
theorem C17_small_size_seek :
    shortStrf.take 8 = tagStrf.bytes ++ le32 4 ∧
    ((AVIInfo.zero.streams.getD 0 StreamInfo.zero).header.type ≠ tagVids ∧
      (AVIInfo.zero.streams.getD 0 StreamInfo.zero).header.type ≠ tagAuds) ∧
    sub32 4 8 = 4294967292 ∧
    (strl_body 0 ⟨shortStrf, 0, false⟩ AVIInfo.zero).1.pos = 4294967300 ∧
    (strl_body 0 ⟨shortStrf, 0, false⟩ AVIInfo.zero).2 = AVIInfo.zero ∧
    (strl_body 0 ⟨shortJunk, 0, false⟩ AVIInfo.zero).1.pos = 12 := by
  decide

end AviInfo
